import Mathlib

/-!
Shallow embedding of the USI engine process manager of
`backend/api/services/engine.py`: protocol-line parsing (`parse_usi_info`,
`is_gote_turn`), the process lifecycle (`ensure_alive`, `stop_and_flush`),
and the streaming, tsume-solving and batch operations, together with the
command/reply traces they produce.  Wall-clock deadlines are abstracted
into fuel parameters (the number of read attempts that fit in a window);
each `_read_line` consumes one entry of an input script, `none` standing
for a read timeout.  Engine output lines never contain a newline (they
come from `readline()` followed by `strip()`), so the `.*` of the PV
regular expression captures the whole remainder of a line.
-/

/-- Python's `\s` character class, restricted to ASCII whitespace
(engine output is ASCII). -/
def pySpace (c : Char) : Bool :=
  c = ' ' || c = '\t' || c = '\n' || c = '\r' || c = '\x0b' || c = '\x0c'

/-- `pat` is a prefix of `hay` (used to model regex literals and Python
`str.startswith`). -/
def prefAt : List Char → List Char → Bool
  | [], _ => true
  | _ :: _, [] => false
  | a :: as, b :: bs => a == b && prefAt as bs

/-- Python `str.startswith`. -/
def pyStartsWith (pre s : String) : Bool := prefAt pre.toList s.toList

/-- Python's substring test `pat in hay`. -/
def containsSub : List Char → List Char → Bool
  | [], pat => prefAt pat []
  | c :: t, pat => prefAt pat (c :: t) || containsSub t pat

/-- Remainder of `l` after the first occurrence of `pat`
(the start of Python `l.split(pat)[1]`); `none` when `pat` is absent. -/
def dropThroughSub : List Char → List Char → Option (List Char)
  | [], pat => if prefAt pat [] then some [] else none
  | c :: t, pat =>
    if prefAt pat (c :: t) then some ((c :: t).drop pat.length)
    else dropThroughSub t pat

/-- Prefix of `l` before the first occurrence of `pat` (all of `l` when
`pat` is absent); composed with `dropThroughSub` this models
`l.split(pat)[1]`. -/
def takeUntilSub : List Char → List Char → List Char
  | [], _ => []
  | c :: t, pat => if prefAt pat (c :: t) then [] else c :: takeUntilSub t pat

/-- Python `str.strip()`. -/
def pyStrip (l : List Char) : List Char :=
  ((l.dropWhile pySpace).reverse.dropWhile pySpace).reverse

/-- One step of the right fold behind `splitWS`. -/
def wsFold (c : Char) (acc : List (List Char)) : List (List Char) :=
  if pySpace c then [] :: acc
  else
    match acc with
    | [] => [[c]]
    | t :: ts => (c :: t) :: ts

/-- Python `str.split()` with no argument: split on whitespace runs,
dropping empty fields. -/
def splitWS (l : List Char) : List (List Char) :=
  (l.foldr wsFold []).filter (fun t => !t.isEmpty)

/-- Numeric value of a run of ASCII digits. -/
def digitsToNat (l : List Char) : Nat :=
  l.foldl (fun a c => a * 10 + (c.toNat - '0'.toNat)) 0

/-- Regex `\s+` (greedy): at least one whitespace character, consuming the
whole run.  Equivalent to the backtracking semantics here because every
follow-up token of the modelled patterns starts with a non-space. -/
def spaces1 (l : List Char) : Option (List Char) :=
  match l with
  | c :: t => if pySpace c then some (t.dropWhile pySpace) else none
  | [] => none

/-- Match `multipv\s+(\d+)` anchored at the start of `l`. -/
def matchMultipvAt (l : List Char) : Option Nat :=
  if prefAt "multipv".toList l then
    match spaces1 (l.drop 7) with
    | some r =>
      let ds := r.takeWhile Char.isDigit
      if ds.isEmpty then none else some (digitsToNat ds)
    | none => none
  else none

/-- `re.search(r"multipv\s+(\d+)", l)`: leftmost match. -/
def findMultipv : List Char → Option Nat
  | [] => none
  | c :: t =>
    match matchMultipvAt (c :: t) with
    | some n => some n
    | none => findMultipv t

inductive SKind
  | cp
  | mate
deriving DecidableEq, Repr

/-- Regex `([\+\-]?\d+)` at the start of `l`.  (If the optional sign is
present but no digit follows, the empty-sign alternative fails on the
sign character as well, so no extra backtracking is needed.) -/
def signedInt (l : List Char) : Option Int :=
  match l with
  | '+' :: r =>
    let ds := r.takeWhile Char.isDigit
    if ds.isEmpty then none else some (digitsToNat ds : Int)
  | '-' :: r =>
    let ds := r.takeWhile Char.isDigit
    if ds.isEmpty then none else some (-(digitsToNat ds : Int))
  | _ =>
    let ds := l.takeWhile Char.isDigit
    if ds.isEmpty then none else some (digitsToNat ds : Int)

/-- Regex `(?:lowerbound\s+|upperbound\s+)?` at the start of `l`: consume a
bound qualifier when one (with trailing whitespace) is present.  When the
qualifier matches but the following signed integer does not, the regex
backtracks to the empty alternative and then fails on the `l`/`u`
character anyway, so consuming greedily is equivalent. -/
def afterBound (l : List Char) : List Char :=
  if prefAt "lowerbound".toList l then
    match spaces1 (l.drop 10) with
    | some r => r
    | none => l
  else if prefAt "upperbound".toList l then
    match spaces1 (l.drop 10) with
    | some r => r
    | none => l
  else l

/-- Alternation `(cp|mate)` followed by `\s+`, bound qualifier and signed
integer, at the start of `l`. -/
def matchKindVal (l : List Char) : Option (SKind × Int) :=
  let tryCp : Option (SKind × Int) :=
    if prefAt "cp".toList l then
      match spaces1 (l.drop 2) with
      | some r => (signedInt (afterBound r)).map (fun v => (SKind.cp, v))
      | none => none
    else none
  match tryCp with
  | some kv => some kv
  | none =>
    if prefAt "mate".toList l then
      match spaces1 (l.drop 4) with
      | some r => (signedInt (afterBound r)).map (fun v => (SKind.mate, v))
      | none => none
    else none

/-- The full pattern
`score\s+(cp|mate)\s+(?:lowerbound\s+|upperbound\s+)?([\+\-]?\d+)`
anchored at the start of `l`. -/
def matchScoreAt (l : List Char) : Option (SKind × Int) :=
  if prefAt "score".toList l then
    match spaces1 (l.drop 5) with
    | some r => matchKindVal r
    | none => none
  else none

/-- `re.search` of the score pattern: leftmost position where the whole
pattern matches. -/
def findScore : List Char → Option (SKind × Int)
  | [] => none
  | c :: t =>
    match matchScoreAt (c :: t) with
    | some kv => some kv
    | none => findScore t

/-- Regex `\x20pv\s+(.*)` anchored at the start of `l`: a literal space,
`pv`, at least one whitespace, then the greedy capture of the rest of the
line. -/
def matchPvAt : List Char → Option (List Char)
  | ' ' :: 'p' :: 'v' :: r => spaces1 r
  | _ => none

/-- `re.search(r" pv\s+(.*)", l)`: leftmost match, returning the capture. -/
def findPv : List Char → Option (List Char)
  | [] => none
  | c :: t =>
    match matchPvAt (c :: t) with
    | some r => some r
    | none => findPv t

/-! ### IEEE-754 binary64 model of `int(val * SCORE_SCALE)`

`SCORE_SCALE = 0.7` is a Python float, i.e. the IEEE double nearest to
7/10, namely `6305039478318694 * 2^-53` (since `0.7 * 2^53 =
6305039478318694.4`).  `val * SCORE_SCALE` converts the int `val` to a
double (rounding to nearest, ties to even; `OverflowError` when out of
range), multiplies — the product of two dyadics rounded the same way —
and `int(...)` truncates toward zero.  Everything below is dyadic
(`significand * 2^exponent`), so it evaluates by pure `Nat`/`Int`
arithmetic. -/

/-- Bit length of a natural number (`0` for `0`); the first argument is
fuel making the halving recursion structural. -/
def bitlenAux : Nat → Nat → Nat
  | 0, _ => 0
  | f + 1, n => if n = 0 then 0 else bitlenAux f (n / 2) + 1

def bitlen (n : Nat) : Nat := bitlenAux n n

/-- Round a positive integer significand to 53 bits (round to nearest,
ties to even): the result `(m, s)` stands for the value `m * 2^s`. -/
def roundSig53 (n : Nat) : Nat × Nat :=
  let bl := bitlen n
  if bl ≤ 53 then (n, 0)
  else
    let s := bl - 53
    let m := n >>> s
    let rem := n - (m <<< s)
    let half := 1 <<< (s - 1)
    let m' :=
      if rem < half then m
      else if half < rem then m + 1
      else if m % 2 = 0 then m else m + 1
    (m', s)

/-- Python `float(a)` for a natural number, as a dyadic `m * 2^s`; `none`
models `OverflowError`. -/
def natToDouble (a : Nat) : Option (Nat × Nat) :=
  let (m, s) := roundSig53 a
  if bitlen m + s ≤ 1024 then some (m, s) else none

/-- The IEEE product of the double `m * 2^s` with the double `0.7 =
6305039478318694 * 2^-53`: multiply the significands exactly and round
back to 53 bits. -/
def mulBy07 (m s : Nat) : Option (Nat × Int) :=
  let p := m * 6305039478318694
  let (mp, sp) := roundSig53 p
  let e : Int := (s : Int) + (sp : Int) - 53
  if (bitlen mp : Int) + e ≤ 1024 then some (mp, e) else none

/-- Truncate the positive dyadic `mp * 2^e` toward zero. -/
def truncDyadic (mp : Nat) (e : Int) : Nat :=
  match e with
  | Int.ofNat k => mp <<< k
  | Int.negSucc k => mp >>> (k + 1)

/-- Python `int(v * 0.7)` under IEEE binary64 semantics.  `none` models an
`OverflowError` escaping from the arithmetic (caught by the enclosing
`try` in `parse_usi_info`); the sign is handled by symmetry of both the
rounding (ties to even) and the truncation toward zero. -/
def pyMul07 (v : Int) : Option Int :=
  let a := v.natAbs
  if a = 0 then some 0
  else
    match natToDouble a with
    | none => none
    | some (m, s) =>
      match mulBy07 m s with
      | none => none
      | some (mp, e) =>
        let r := truncDyadic mp e
        some (if v < 0 then -(r : Int) else (r : Int))

/-- Exact scaling by the real factor 7/10, truncated toward zero — the
reading of "scaled by the fixed factor 0.7, truncated toward zero" with
exact arithmetic; compared against the float behaviour of the code. -/
def exactScale07 (v : Int) : Int :=
  let q := 7 * v.natAbs / 10
  if v < 0 then -(q : Int) else (q : Int)

/-! ### `parse_usi_info` -/

inductive Score
  | cp (v : Int)
  | mate (v : Int)
deriving DecidableEq, Repr

def mkScore : SKind → Int → Score
  | SKind.cp, v => Score.cp v
  | SKind.mate, v => Score.mate v

/-- Negation used for perspective normalization (`s["cp"] = -s["cp"]`,
`s["mate"] = -s["mate"]`). -/
def negScore : Score → Score
  | Score.cp v => Score.cp (-v)
  | Score.mate v => Score.mate (-v)

/-- The dictionary built by `parse_usi_info`: `multipv` defaults to 1,
`score` is always present in a returned dict, the `pv` key is present
only when the ` pv\s+(.*)` search matched. -/
structure InfoData where
  multipv : Nat
  score : Score
  pv : Option (List Char)
deriving DecidableEq, Repr

def flipInfo (i : InfoData) : InfoData := { i with score := negScore i.score }

/-- `BaseEngine.parse_usi_info`: requires both `score` and `pv` as
substrings, extracts multipv (default 1), the score (returning `none`
when the score pattern does not match), scales centipawn values by the
float 0.7, and stores the stripped PV capture when the PV pattern
matched. -/
def parse_usi_info (line : List Char) : Option InfoData :=
  if containsSub line "score".toList && containsSub line "pv".toList then
    match findScore line with
    | none => none
    | some (k, raw) =>
      match (match k with
             | SKind.cp => pyMul07 raw
             | SKind.mate => some raw) with
      | none => none
      | some v =>
        some
          { multipv := (findMultipv line).getD 1
            score := mkScore k v
            pv := (findPv line).map pyStrip }
  else none

/-! ### `is_gote_turn` -/

/-- The side-to-move token of an `sfen` position command: the list element
two places after the first element equal to `"sfen"`, `none` when the
token list has no `"sfen"` element or is too short (the `ValueError` /
`IndexError` cases of the `try` block). -/
def sfenTurnTok (l : List Char) : Option (List Char) :=
  ((splitWS l).findIdx? (fun t => t == "sfen".toList)).bind
    (fun i => (splitWS l).get? (i + 2))

/-- `is_gote_turn`, with the one statement that could raise outside a
`try` block (`position_cmd.split("moves")[1]`) modelled as `Option`;
`none` would be an uncaught `IndexError`.  The sfen branch is inside
`try/except` and never propagates an exception. -/
def is_gote_turnE (position_cmd : String) : Option Bool :=
  let l := position_cmd.toList
  if containsSub l "startpos".toList then
    if !containsSub l "moves".toList then some false
    else
      match dropThroughSub l "moves".toList with
      | none => none
      | some rest =>
        let moves_part := pyStrip (takeUntilSub rest "moves".toList)
        if moves_part.isEmpty then some false
        else some (decide ((splitWS moves_part).length % 2 ≠ 0))
  else if containsSub l "sfen".toList then
    some (match sfenTurnTok l with
          | none => false
          | some turn => turn == "w".toList)
  else some false

/-- `is_gote_turn` as the total function it is at runtime (the `none`
case is proved unreachable in the C10 theorem). -/
def is_gote_turn (s : String) : Bool := (is_gote_turnE s).getD false

/-! ### Engine process model

A `Proc` carries only what the embedding observes: the exit code
(`returncode`).  `St` is the mutable state threaded through every
operation: the process handle and the remaining input script, each entry
of which is one `_read_line` outcome (`none` = timeout / no output).
Every operation returns the trace of externally visible events it
produced: commands written to stdin (`send`), lines read from stdout
(`recv`), and items yielded to the consumer (`out…`). -/

structure Proc where
  returncode : Option Int
deriving DecidableEq, Repr

structure St where
  proc : Option Proc
  input : List (Option String)
deriving DecidableEq, Repr

/-- Result of one bounded sub-search (`fast_analyze_one`): the Python dict
`{"ok", "bestmove", "multipv"}` (the failure dict `{"ok": False}` is
modelled with `none`/`[]` for the absent keys). -/
structure FAResult where
  ok : Bool
  bestmove : Option String
  multipv : List InfoData
deriving DecidableEq, Repr

inductive Ev
  | send (s : String)
  | recv (s : String)
  | outErr (s : String)
  | outKeepalive
  | outBestmove (m : String)
  | outInfo (i : InfoData)
  | outStart
  | outPly (i : Nat) (r : FAResult)
deriving DecidableEq, Repr

/-- `_read_line`: `none` without consuming anything when there is no
process; otherwise one script entry is consumed (`none` = timeout). -/
def read_line (st : St) : Option String × St × List Ev :=
  match st.proc with
  | none => (none, st, [])
  | some _ =>
    match st.input with
    | [] => (none, st, [])
    | o :: rest =>
      (o, { st with input := rest },
        match o with
        | some l => [Ev.recv l]
        | none => [])

/-- `_send_line`: writes only when a process with stdin exists; write
errors are swallowed. -/
def send_line (s : String) (st : St) : St × List Ev :=
  if st.proc.isSome then (st, [Ev.send s]) else (st, [])

/-- `_wait_until`: read lines until the predicate holds on a non-empty
line or the deadline (fuel) runs out.  It never raises on timeout. -/
def wait_until (p : String → Bool) : Nat → St → St × List Ev
  | 0, st => (st, [])
  | n + 1, st =>
    let q := read_line st
    match q.1 with
    | some l =>
      if l != "" && p l then (q.2.1, q.2.2)
      else
        let w := wait_until p n q.2.1
        (w.1, q.2.2 ++ w.2)
    | none =>
      let w := wait_until p n q.2.1
      (w.1, q.2.2 ++ w.2)

/-- The drain loop of `stop_and_flush`: read until a `bestmove` line
appears or the 0.5 s budget (fuel) runs out. -/
def sfLoop : Nat → St → St × List Ev
  | 0, st => (st, [])
  | n + 1, st =>
    let q := read_line st
    match q.1 with
    | none =>
      let w := sfLoop n q.2.1
      (w.1, q.2.2 ++ w.2)
    | some l =>
      if l = "" then
        let w := sfLoop n q.2.1
        (w.1, q.2.2 ++ w.2)
      else if pyStartsWith "bestmove" l then (q.2.1, q.2.2)
      else
        let w := sfLoop n q.2.1
        (w.1, q.2.2 ++ w.2)

/-- `EngineState.stop_and_flush`: no-op without a process, otherwise send
`stop` and drain. -/
def stop_and_flush (fuel : Nat) (st : St) : St × List Ev :=
  match st.proc with
  | none => (st, [])
  | some _ =>
    let s := send_line "stop" st
    let w := sfLoop fuel s.1
    (w.1, s.2 ++ w.2)

/-- The spawn-and-handshake body of `ensure_alive`.  `spawn = none`
models `create_subprocess_exec` raising, in which case the `except`
handler clears the handle.  After a successful spawn no statement in the
body can raise (`_send_line` swallows its errors and `_wait_until`
returns silently on timeout), so the handle always remains set. -/
def usi_start (spawn : Option Proc) (evalDirExists : Bool)
    (bootFuel readyFuel ready2Fuel : Nat) (st : St) : St × List Ev :=
  match spawn with
  | none => ({ st with proc := none }, [])
  | some p =>
    let st0 : St := { st with proc := some p }
    let s1 := send_line "usi" st0
    let s2 := wait_until (fun l => containsSub l.toList "usiok".toList) bootFuel s1.1
    let s3 := send_line "setoption name Threads value 1" s2.1
    let s4 := send_line "setoption name USI_Hash value 64" s3.1
    let s5 :=
      if evalDirExists then
        send_line "setoption name EvalDir value /usr/local/bin/eval" s4.1
      else (s4.1, [])
    let s6 := send_line "setoption name OwnBook value false" s5.1
    let s7 := send_line "setoption name MultiPV value 3" s6.1
    let s8 := send_line "isready" s7.1
    let s9 := wait_until (fun l => containsSub l.toList "readyok".toList) readyFuel s8.1
    let sA := send_line "usinewgame" s9.1
    let sB := send_line "isready" sA.1
    let sC := wait_until (fun l => containsSub l.toList "readyok".toList) ready2Fuel sB.1
    (sC.1, s1.2 ++ s2.2 ++ s3.2 ++ s4.2 ++ s5.2 ++ s6.2 ++ s7.2 ++ s8.2 ++ s9.2
      ++ sA.2 ++ sB.2 ++ sC.2)

/-- `EngineState.ensure_alive`: no-op when the process exists and has not
exited, otherwise run the startup sequence. -/
def ensure_alive (spawn : Option Proc) (evalDirExists : Bool)
    (bootFuel readyFuel ready2Fuel : Nat) (st : St) : St × List Ev :=
  match st.proc with
  | some p =>
    if p.returncode = none then (st, [])
    else usi_start spawn evalDirExists bootFuel readyFuel ready2Fuel st
  | none => usi_start spawn evalDirExists bootFuel readyFuel ready2Fuel st

/-! ### `stream_analyze` -/

/-- The read loop of `stream_analyze` (a `while True`, made total by
fuel).  `cancel j` is the value of the shared cancellation flag observed
at the top of iteration `j`; the flag is checked only there, never
mid-read.  `is_gote` is the perspective flag computed before the `go`
command was sent. -/
def streamAnalyzeLoop (cancel : Nat → Bool) (is_gote : Bool) (sfFuel : Nat) :
    Nat → Nat → St → St × List Ev
  | 0, _, st => (st, [])
  | fuel + 1, j, st =>
    if cancel j then stop_and_flush sfFuel st
    else
      let q := read_line st
      match q.1 with
      | none =>
        -- timeout: the keepalive is yielded first, the liveness check runs
        -- only afterwards (exactly the order of the source).
        match q.2.1.proc with
        | some p =>
          if p.returncode.isSome then (q.2.1, q.2.2 ++ [Ev.outKeepalive])
          else
            let w := streamAnalyzeLoop cancel is_gote sfFuel fuel (j + 1) q.2.1
            (w.1, q.2.2 ++ [Ev.outKeepalive] ++ w.2)
        | none =>
          let w := streamAnalyzeLoop cancel is_gote sfFuel fuel (j + 1) q.2.1
          (w.1, q.2.2 ++ [Ev.outKeepalive] ++ w.2)
      | some l =>
        if l = "" then (q.2.1, q.2.2)
        else if pyStartsWith "bestmove" l then
          match splitWS l.toList with
          | _ :: m :: _ => (q.2.1, q.2.2 ++ [Ev.outBestmove (String.mk m)])
          | _ => (q.2.1, q.2.2)
        else
          match parse_usi_info l.toList with
          | some info =>
            let w := streamAnalyzeLoop cancel is_gote sfFuel fuel (j + 1) q.2.1
            (w.1, q.2.2 ++ [Ev.outInfo (if is_gote then flipInfo info else info)] ++ w.2)
          | none =>
            let w := streamAnalyzeLoop cancel is_gote sfFuel fuel (j + 1) q.2.1
            (w.1, q.2.2 ++ w.2)

/-- The `position`-command normalization shared by `stream_analyze`. -/
def pos_cmd_of (position : String) : String :=
  if pyStartsWith "position" position then position else "position " ++ position

/-- `EngineState.stream_analyze`. -/
def stream_analyze (position : String) (depth multipv : Nat) (cancel : Nat → Bool)
    (spawn : Option Proc) (evalDirExists : Bool)
    (bootFuel readyFuel ready2Fuel sfFuel isrFuel loopFuel : Nat) (st : St) :
    St × List Ev :=
  let e1 := ensure_alive spawn evalDirExists bootFuel readyFuel ready2Fuel st
  match e1.1.proc with
  | none => (e1.1, e1.2 ++ [Ev.outErr "Engine not available"])
  | some _ =>
    let s2 := stop_and_flush sfFuel e1.1
    let s3 := send_line "isready" s2.1
    let s4 := wait_until (fun l => containsSub l.toList "readyok".toList) isrFuel s3.1
    let pc := pos_cmd_of position
    let s5 := send_line pc s4.1
    let s6 :=
      send_line ("go depth " ++ toString depth ++ " multipv " ++ toString multipv) s5.1
    let w := streamAnalyzeLoop cancel (is_gote_turn pc) sfFuel loopFuel 0 s6.1
    (w.1, e1.2 ++ s2.2 ++ s3.2 ++ s4.2 ++ s5.2 ++ s6.2 ++ w.2)

/-! ### `solve_tsume_hand` -/

inductive TsumeLoopEnd
  | crashed
  | finished (bm : Option String)
deriving DecidableEq, Repr

/-- The 5-second read loop of `solve_tsume_hand`; the accumulator is the
`mate_found` flag.  On a silent read the process exit code is inspected
(crash detection); a `score mate -` line sets the flag, a later
`score mate +` line clears it again; the loop breaks at the first
`bestmove` line (whether or not it carries a move token). -/
def tsumeLoop : Nat → Bool → St → TsumeLoopEnd × Bool × St × List Ev
  | 0, mf, st => (TsumeLoopEnd.finished none, mf, st, [])
  | n + 1, mf, st =>
    let q := read_line st
    match q.1 with
    | none =>
      match q.2.1.proc with
      | some p =>
        if p.returncode.isSome then
          (TsumeLoopEnd.crashed, mf, { q.2.1 with proc := none }, q.2.2)
        else
          let w := tsumeLoop n mf q.2.1
          (w.1, w.2.1, w.2.2.1, q.2.2 ++ w.2.2.2)
      | none =>
        let w := tsumeLoop n mf q.2.1
        (w.1, w.2.1, w.2.2.1, q.2.2 ++ w.2.2.2)
    | some l =>
      if l = "" then
        match q.2.1.proc with
        | some p =>
          if p.returncode.isSome then
            (TsumeLoopEnd.crashed, mf, { q.2.1 with proc := none }, q.2.2)
          else
            let w := tsumeLoop n mf q.2.1
            (w.1, w.2.1, w.2.2.1, q.2.2 ++ w.2.2.2)
        | none =>
          let w := tsumeLoop n mf q.2.1
          (w.1, w.2.1, w.2.2.1, q.2.2 ++ w.2.2.2)
      else
        let mf' :=
          if containsSub l.toList "score mate -".toList then true
          else if containsSub l.toList "score mate +".toList then false
          else mf
        if pyStartsWith "bestmove" l then
          (TsumeLoopEnd.finished
            (match splitWS l.toList with
             | _ :: m :: _ => some (String.mk m)
             | _ => none), mf', q.2.1, q.2.2)
        else
          let w := tsumeLoop n mf' q.2.1
          (w.1, w.2.1, w.2.2.1, q.2.2 ++ w.2.2.2)

structure TsumeRes where
  status : String
  bestmove : Option String
  message : String
deriving DecidableEq, Repr

/-- The four-way classification applied once a `bestmove` token was
obtained. -/
def classifyTsume (bm : String) (mate_found : Bool) : TsumeRes :=
  if bm = "resign" then ⟨"win", some "resign", "正解！詰みました！"⟩
  else if bm = "win" then ⟨"lose", some "win", "不正解：入玉されてしまいました"⟩
  else if mate_found then ⟨"continue", some bm, "正解！"⟩
  else ⟨"incorrect", some bm, "その手では詰みません"⟩

/-- `EngineState.solve_tsume_hand`.  Note: `_wait_until` cannot raise
`asyncio.TimeoutError` (it swallows timeouts), so `is_idle` is always
`True` and the `stop_and_flush` recovery branch guarded by
`if not is_idle` is dead code; it is kept here under the same guard. -/
def solve_tsume_hand (sfen : String) (spawn : Option Proc) (evalDirExists : Bool)
    (bootFuel readyFuel ready2Fuel idleFuel sfFuel isr2Fuel loopFuel : Nat)
    (st : St) : TsumeRes × St × List Ev :=
  let e1 := ensure_alive spawn evalDirExists bootFuel readyFuel ready2Fuel st
  match e1.1.proc with
  | none => (⟨"error", none, "Engine not started"⟩, e1.1, e1.2)
  | some _ =>
    let s2 := send_line "isready" e1.1
    let s3 := wait_until (fun l => containsSub l.toList "readyok".toList) idleFuel s2.1
    let is_idle := true
    let s4 :=
      if is_idle then (s3.1, ([] : List Ev))
      else
        let sa := stop_and_flush sfFuel s3.1
        let sb := send_line "isready" sa.1
        let sc := wait_until (fun l => containsSub l.toList "readyok".toList) isr2Fuel sb.1
        (sc.1, sa.2 ++ sb.2 ++ sc.2)
    let sfen_cmd := if pyStartsWith "sfen" sfen then sfen else "sfen " ++ sfen
    let s5 := send_line ("position " ++ sfen_cmd) s4.1
    let s6 := send_line "go nodes 2000" s5.1
    let w := tsumeLoop loopFuel false s6.1
    let pre := e1.2 ++ s2.2 ++ s3.2 ++ s4.2 ++ s5.2 ++ s6.2
    match w.1 with
    | TsumeLoopEnd.crashed => (⟨"error", none, "Engine crashed"⟩, w.2.2.1, pre ++ w.2.2.2)
    | TsumeLoopEnd.finished none =>
      let s8 := stop_and_flush sfFuel w.2.2.1
      (⟨"error", none, "Timeout"⟩, s8.1, pre ++ w.2.2.2 ++ s8.2)
    | TsumeLoopEnd.finished (some bm) => (classifyTsume bm w.2.1, w.2.2.1, pre ++ w.2.2.2)

/-! ### `fast_analyze_one` and `stream_batch_analyze` -/

/-- Python dict insertion `cands_map[k] = v` on an insertion-ordered
association list. -/
def assocPut : List (Nat × InfoData) → Nat → InfoData → List (Nat × InfoData)
  | [], k, v => [(k, v)]
  | (k0, v0) :: t, k, v =>
    if k0 = k then (k, v) :: t else (k0, v0) :: assocPut t k v

/-- Stable insertion used to model `sorted(..., key=multipv)`. -/
def insKey (p : Nat × InfoData) : List (Nat × InfoData) → List (Nat × InfoData)
  | [] => [p]
  | q :: t => if p.1 ≤ q.1 then p :: q :: t else q :: insKey p t

def sortByKey : List (Nat × InfoData) → List (Nat × InfoData)
  | [] => []
  | p :: t => insKey p (sortByKey t)

/-- The 10-second read loop of `fast_analyze_one`: accumulate the latest
`InfoData` per multipv slot, break at the first `bestmove` line. -/
def faLoop : Nat → St → List (Nat × InfoData) →
    Option String × List (Nat × InfoData) × St × List Ev
  | 0, st, m => (none, m, st, [])
  | n + 1, st, m =>
    let q := read_line st
    match q.1 with
    | none =>
      let w := faLoop n q.2.1 m
      (w.1, w.2.1, w.2.2.1, q.2.2 ++ w.2.2.2)
    | some l =>
      if l = "" then
        let w := faLoop n q.2.1 m
        (w.1, w.2.1, w.2.2.1, q.2.2 ++ w.2.2.2)
      else
        let m' :=
          if containsSub l.toList "score".toList && containsSub l.toList "pv".toList then
            match parse_usi_info l.toList with
            | some info => assocPut m info.multipv info
            | none => m
          else m
        if pyStartsWith "bestmove" l then
          ((match splitWS l.toList with
            | _ :: w :: _ => some (String.mk w)
            | _ => none), m', q.2.1, q.2.2)
        else
          let w := faLoop n q.2.1 m'
          (w.1, w.2.1, w.2.2.1, q.2.2 ++ w.2.2.2)

/-- `BatchEngineState.fast_analyze_one`: immediately `ok: False` without a
process; otherwise send the position and a node-bounded `go`, read until
`bestmove` or the time budget (fuel) runs out, and return the
multipv-sorted accumulated lines.  When the budget expires with no
`bestmove`, the search is left running: no `stop` is sent. -/
def fast_analyze_one (position_cmd : String) (fuel : Nat) (st : St) :
    FAResult × St × List Ev :=
  match st.proc with
  | none => (⟨false, none, []⟩, st, [])
  | some _ =>
    let s1 := send_line position_cmd st
    let s2 := send_line "go nodes 150000 multipv 1" s1.1
    let w := faLoop fuel s2.1 []
    (⟨w.1.isSome, w.1, (sortByKey w.2.1).map Prod.snd⟩, w.2.2.1, s1.2 ++ s2.2 ++ w.2.2.2)

/-- Perspective flip of a whole per-ply result. -/
def flipRes (r : FAResult) : FAResult :=
  { r with multipv := r.multipv.map flipInfo }

/-- The position command built for ply `i` of a batch:
`position startpos` for the first ply, `position startpos moves …`
thereafter. -/
def batch_pos_cmd (moves : List String) (i : Nat) : String :=
  "position " ++
    (if 0 < i then "startpos moves " ++ String.intercalate " " (moves.take i)
     else "startpos")

/-- The perspective normalization of a ply result: negate every score
exactly when the ply index is odd (`if i % 2 != 0`). -/
def flipIfOdd (i : Nat) (r : FAResult) : FAResult :=
  if i % 2 ≠ 0 then flipRes r else r

/-- The per-ply loop of `stream_batch_analyze` (`for i in
range(len(moves)+1)`), also returning the list of per-ply
`fast_analyze_one` results actually attempted.  `cancel i` is the
cancellation flag observed at the top of iteration `i`; `hasBudget`
models `time_budget_ms` being non-`None` and `overBudget i` the elapsed
time having exceeded it at iteration `i`. -/
def batchLoop (cancel overBudget : Nat → Bool) (hasBudget : Bool)
    (moves : List String) (faFuel sfFuel : Nat) :
    Nat → Nat → St → St × List Ev × List (Nat × FAResult)
  | 0, _, st => (st, [], [])
  | k + 1, i, st =>
    if cancel i then
      let s := stop_and_flush sfFuel st
      (s.1, s.2, [])
    else if hasBudget && overBudget i then (st, [], [])
    else
      let a := fast_analyze_one (batch_pos_cmd moves i) faFuel st
      let evs := if a.1.ok then [Ev.outPly i (flipIfOdd i a.1)] else []
      let w :=
        batchLoop cancel overBudget hasBudget moves faFuel sfFuel k (i + 1) a.2.1
      (w.1, a.2.2 ++ evs ++ w.2.1, (i, a.1) :: w.2.2)

/-- `BatchEngineState.stream_batch_analyze`.  There is no early return
when startup fails: the start frame is still yielded and every
`fast_analyze_one` then reports `ok: False`. -/
def stream_batch_analyze (moves : List String) (hasBudget : Bool)
    (overBudget cancel : Nat → Bool) (spawn : Option Proc) (evalDirExists : Bool)
    (bootFuel readyFuel ready2Fuel sfFuel faFuel : Nat) (st : St) :
    St × List Ev × List (Nat × FAResult) :=
  let e1 := ensure_alive spawn evalDirExists bootFuel readyFuel ready2Fuel st
  let s2 := stop_and_flush sfFuel e1.1
  let w :=
    batchLoop cancel overBudget hasBudget moves faFuel sfFuel (moves.length + 1) 0 s2.1
  (w.1, e1.2 ++ s2.2 ++ [Ev.outStart] ++ w.2.1, w.2.2)

/-! ### Trace predicates -/

/-- A `go`-equivalent command (`go depth …`, `go nodes …`). -/
def isGoSend : Ev → Bool
  | Ev.send s => pyStartsWith "go " s
  | _ => false

/-- An event that terminates an outstanding search: a `stop` command or a
`bestmove` reply. -/
def isClearEv : Ev → Bool
  | Ev.send s => s = "stop"
  | Ev.recv s => pyStartsWith "bestmove" s
  | _ => false

/-- Scan a trace tracking whether a `go` is outstanding; `none` marks a
second `go` issued while one is already in flight (the protocol
violation), `some b` the final in-flight status. -/
def goScan : Bool → List Ev → Option Bool
  | b, [] => some b
  | b, e :: t =>
    if isGoSend e then (if b then none else goScan true t)
    else if isClearEv e then goScan false t
    else goScan b t

/-- Events yielded to the consumer (as opposed to protocol I/O). -/
def isOutEv : Ev → Bool
  | Ev.send _ => false
  | Ev.recv _ => false
  | _ => true

/-- The `(ply, result)` payloads of the `BatchPly` events of a trace. -/
def plyEvs (t : List Ev) : List (Nat × FAResult) :=
  t.filterMap fun e =>
    match e with
    | Ev.outPly i r => some (i, r)
    | _ => none

/-- The engine lines received in a trace. -/
def recvLines (t : List Ev) : List String :=
  t.filterMap fun e =>
    match e with
    | Ev.recv l => some l
    | _ => none

/-- What a single engine line contributes to the `mate_found` flag of
`solve_tsume_hand`: `some true` for a line favouring the attacker
(`score mate -`), `some false` for one refuting the mate
(`score mate +`), `none` for anything else. -/
def mateLineSignal (l : String) : Option Bool :=
  if containsSub l.toList "score mate -".toList then some true
  else if containsSub l.toList "score mate +".toList then some false
  else none

/-- The most recent mate signal of a sequence of lines (`false` when no
line carried one). -/
def lastMateSignal (lines : List String) : Bool :=
  (lines.filterMap mateLineSignal).getLastD false

/-! ### Concrete runs used by the counterexample / witness theorems -/

/-- A batch run over one move against an engine that never answers: both
`fast_analyze_one` calls exhaust their budget without a `bestmove`. -/
def silentBatchRun : St × List Ev × List (Nat × FAResult) :=
  stream_batch_analyze ["7g7f"] false (fun _ => false) (fun _ => false)
    (some ⟨none⟩) false 0 0 0 0 1 ⟨some ⟨none⟩, []⟩

/-- The same batch run against an engine that answers every `go` with a
`bestmove`. -/
def answeredBatchRun : St × List Ev × List (Nat × FAResult) :=
  stream_batch_analyze ["7g7f"] false (fun _ => false) (fun _ => false)
    (some ⟨none⟩) false 0 0 0 0 1
    ⟨some ⟨none⟩, [some "bestmove 7g7f", some "bestmove 3c3d"]⟩

/-- A tsume run in which a mate line favouring the attacker is observed
and then overridden by a `score mate +` line before `bestmove`. -/
def overriddenTsumeRun : TsumeRes × St × List Ev :=
  solve_tsume_hand "9/9/9/9/9/9/9/9/9 b - 1" (some ⟨none⟩) false 0 0 0 0 0 0 5
    ⟨some ⟨none⟩,
     [some "info depth 1 score mate -1 pv P*5b",
      some "info depth 2 score mate +2 pv 4a3b",
      some "bestmove 4a3b"]⟩

/-- A tsume run whose engine immediately resigns. -/
def resignTsumeRun : TsumeRes × St × List Ev :=
  solve_tsume_hand "9/9/9/9/9/9/9/9/9 b - 1" (some ⟨none⟩) false 0 0 0 0 0 0 2
    ⟨some ⟨none⟩, [some "bestmove resign"]⟩

/-! ### Well-formed position commands (for the `is_gote_turn` claim)

USI move tokens and SFEN fields are nonempty, contain no whitespace, and
never contain the letter `m` (moves use digits, the rank letters `a`–`i`,
the upper-case drop-piece letters and `+`/`*`; SFEN fields use piece
letters, digits, `/`, `-`, `b` and `w`). -/

/-- Space-separated concatenation of tokens (`" ".join(...)`). -/
def joinTok : List (List Char) → List Char
  | [] => []
  | [t] => t
  | t :: ts => t ++ ' ' :: joinTok ts

/-- A well-formed whitespace-free token. -/
def goodTok (t : List Char) : Prop :=
  t ≠ [] ∧ ∀ c ∈ t, pySpace c = false

/-- An event that is neither a `go` command nor a consumer-visible yield
(commands other than `go`, and received lines). -/
def benign (e : Ev) : Prop := isGoSend e = false ∧ isOutEv e = false

/-! ## Theorems -/

/-- **C2, counterexample.**  The line `info score cp 100 pv` contains both
a `score` and a `pv` token, so it qualifies and `parse_usi_info` returns
an `InfoData` — but the ` pv\s+(.*)` search fails (nothing follows `pv`),
so the returned record carries *no* PV move list, refuting "every
returned InfoLine carries both a parsed score and a PV move list". -/
theorem c2_infoline_counterexample :
    parse_usi_info "info score cp 100 pv".toList
        = some { multipv := 1, score := Score.cp 70, pv := none }
      ∧ containsSub "info score cp 100 pv".toList "score".toList = true
      ∧ containsSub "info score cp 100 pv".toList "pv".toList = true := by
  decide

/-- **C3, code bug.**  Failing input: a fresh state (no process), a
successful spawn, and an engine that never emits `usiok`/`readyok` within
the boot timeout.  `_wait_until` swallows the timeout instead of raising
`asyncio.TimeoutError`, so the startup sequence runs to completion and
`ensure_alive` returns with the process handle still set — no line was
ever received, yet the handle is not cleared, contradicting the claimed
"cleared to None on any startup failure". -/
theorem c3_startup_clear_bug :
    (ensure_alive (some ⟨none⟩) false 3 3 3 ⟨none, []⟩).1.proc = some ⟨none⟩
      ∧ recvLines (ensure_alive (some ⟨none⟩) false 3 3 3 ⟨none, []⟩).2 = [] := by
  decide

/-- **C4, counterexample.**  For the raw centipawn value 90 the code
computes `int(90 * 0.7)` in binary64: `90 * 0.7` rounds *down* to
`62.99999999999999289…`, so the exposed value is 62, while scaling by the
real factor 0.7 and truncating toward zero gives 63.  The claimed
identity with exact 0.7-scaling fails. -/
theorem c4_scale_counterexample :
    parse_usi_info "info multipv 1 score cp 90 pv 7g7f".toList
        = some { multipv := 1, score := Score.cp 62, pv := some "7g7f".toList }
      ∧ exactScale07 90 = 63
      ∧ (62 : Int) ≠ 63 := by
  decide

/-- **C8, counterexample.**  With the process already exited
(`returncode = 0`) and a read timeout, the loop still yields the
keepalive *first* and only then checks the exit code and ends the
stream: the trace of the iteration is exactly `[outKeepalive]`, refuting
"if the process has exited, the stream ends instead of emitting a
keepalive". -/
theorem c8_keepalive_counterexample :
    streamAnalyzeLoop (fun _ => false) false 0 1 0 ⟨some ⟨some 0⟩, [none]⟩
      = (⟨some ⟨some 0⟩, []⟩, [Ev.outKeepalive]) := by
  decide

/-- **C1, counterexample.**  In `silentBatchRun` neither ply's
`fast_analyze_one` ever receives a `bestmove`; the orchestrator sends no
`stop` either and proceeds to the next ply, so the session writes two
`go` commands with no intervening `bestmove`/`stop` (the `goScan`
violation), refuting the claimed invariant. -/
theorem c1_goInvariant_counterexample :
    silentBatchRun.2.1
        = [Ev.send "stop", Ev.outStart,
           Ev.send "position startpos", Ev.send "go nodes 150000 multipv 1",
           Ev.send "position startpos moves 7g7f", Ev.send "go nodes 150000 multipv 1"]
      ∧ goScan false silentBatchRun.2.1 = none := by
  decide

/-- **C5, counterexample.**  In `silentBatchRun` cancellation is never
requested and no time budget is set, yet no `BatchPly` event at all is
emitted (both per-ply analyses fail and are skipped silently), refuting
"exactly one BatchPly event per index from 0 to N inclusive". -/
theorem c5_batchply_counterexample :
    (plyEvs silentBatchRun.2.1).map Prod.fst = []
      ∧ List.range (List.length ["7g7f"] + 1) = [0, 1] := by
  decide

/-- **C9, counterexample.**  In `overriddenTsumeRun` a `score mate -`
line favouring the attacker *is* observed during the search, but a later
`score mate +` line resets `mate_found`, so the returned status is
`incorrect` — the classification follows the most recent mate signal,
not "whether a favouring line was observed". -/
theorem c9_tsume_counterexample :
    overriddenTsumeRun.1.status = "incorrect"
      ∧ mateLineSignal "info depth 1 score mate -1 pv P*5b" = some true
      ∧ Ev.recv "info depth 1 score mate -1 pv P*5b" ∈ overriddenTsumeRun.2.2 := by
  decide

/-! ### Trace lemmas -/

theorem goScan_append (t1 t2 : List Ev) (b : Bool) :
    goScan b (t1 ++ t2) = (goScan b t1).bind (fun c => goScan c t2) := by
  induction t1 generalizing b with
  | nil => simp [goScan]
  | cons e t ih =>
    by_cases hg : isGoSend e = true
    · by_cases hb : b
      · simp [goScan, hg, hb]
      · simp only [List.cons_append, goScan, hg, if_true]
        simp only [Bool.not_eq_true] at hb
        subst hb
        simpa using ih true
    · simp only [Bool.not_eq_true] at hg
      by_cases hc : isClearEv e = true
      · simp only [List.cons_append, goScan, hg, hc]
        simpa using ih false
      · simp only [Bool.not_eq_true] at hc
        simp only [List.cons_append, goScan, hg, hc]
        simpa using ih b

theorem goScan_false_of_noGo (t : List Ev) (h : ∀ e ∈ t, isGoSend e = false) :
    goScan false t = some false := by
  induction t with
  | nil => rfl
  | cons e t ih =>
    have he := h e (by simp)
    by_cases hc : isClearEv e = true
    · simp only [goScan, he, hc]
      exact ih (fun e' he' => h e' (by simp [he']))
    · simp only [Bool.not_eq_true] at hc
      simp only [goScan, he, hc]
      exact ih (fun e' he' => h e' (by simp [he']))

theorem benign_of_recv {e : Ev} (h : ∃ l, e = Ev.recv l) : benign e := by
  obtain ⟨l, rfl⟩ := h
  exact ⟨rfl, rfl⟩

theorem read_line_recv (st : St) : ∀ e ∈ (read_line st).2.2, ∃ l, e = Ev.recv l := by
  intro e he
  cases hp : st.proc with
  | none => simp [read_line, hp] at he
  | some p =>
    cases hi : st.input with
    | nil => simp [read_line, hp, hi] at he
    | cons o rest =>
      cases o with
      | none => simp [read_line, hp, hi] at he
      | some l =>
        simp [read_line, hp, hi] at he
        exact ⟨l, he⟩

theorem wait_until_recv (p : String → Bool) :
    ∀ (n : Nat) (st : St), ∀ e ∈ (wait_until p n st).2, ∃ l, e = Ev.recv l := by
  intro n
  induction n with
  | zero => intro st e he; simp [wait_until] at he
  | succ n ih =>
    intro st e he
    rw [wait_until] at he
    rcases hr : read_line st with ⟨r, st1, t1⟩
    rw [hr] at he
    have ht1 : ∀ e ∈ t1, ∃ l, e = Ev.recv l := by
      have := read_line_recv st
      rw [hr] at this
      exact this
    cases r with
    | some l =>
      by_cases hpl : (l != "" && p l) = true
      · simp only [hpl, if_true] at he
        exact ht1 e he
      · simp only [Bool.not_eq_true] at hpl
        simp only [hpl, Bool.false_eq_true, if_false] at he
        rcases List.mem_append.mp he with he2 | he2
        · exact ht1 e he2
        · exact ih st1 e he2
    | none =>
      rcases List.mem_append.mp he with he2 | he2
      · exact ht1 e he2
      · exact ih st1 e he2

theorem sfLoop_recv :
    ∀ (n : Nat) (st : St), ∀ e ∈ (sfLoop n st).2, ∃ l, e = Ev.recv l := by
  intro n
  induction n with
  | zero => intro st e he; simp [sfLoop] at he
  | succ n ih =>
    intro st e he
    rw [sfLoop] at he
    rcases hr : read_line st with ⟨r, st1, t1⟩
    rw [hr] at he
    have ht1 : ∀ e ∈ t1, ∃ l, e = Ev.recv l := by
      have := read_line_recv st
      rw [hr] at this
      exact this
    cases r with
    | none =>
      rcases List.mem_append.mp he with he2 | he2
      · exact ht1 e he2
      · exact ih st1 e he2
    | some l =>
      by_cases h0 : l = ""
      · simp only [h0, if_pos rfl] at he
        rcases List.mem_append.mp he with he2 | he2
        · exact ht1 e he2
        · exact ih st1 e he2
      · by_cases hb : pyStartsWith "bestmove" l = true
        · simp only [if_neg h0, hb, if_true] at he
          exact ht1 e he
        · simp only [Bool.not_eq_true] at hb
          simp only [if_neg h0, hb, Bool.false_eq_true, if_false] at he
          rcases List.mem_append.mp he with he2 | he2
          · exact ht1 e he2
          · exact ih st1 e he2

theorem stop_and_flush_shape (f : Nat) (st : St) :
    (st.proc.isSome = true →
      ∃ r, (stop_and_flush f st).2 = Ev.send "stop" :: r ∧ ∀ e ∈ r, ∃ l, e = Ev.recv l)
    ∧ ∀ e ∈ (stop_and_flush f st).2, benign e := by
  cases hp : st.proc with
  | none =>
    refine ⟨by simp [hp], ?_⟩
    intro e he
    simp [stop_and_flush, hp] at he
  | some p =>
    have hsend : send_line "stop" st = (st, [Ev.send "stop"]) := by
      simp [send_line, hp]
    have hsf : (stop_and_flush f st).2 = Ev.send "stop" :: (sfLoop f st).2 := by
      simp [stop_and_flush, hp, hsend]
    refine ⟨fun _ => ⟨(sfLoop f st).2, hsf, sfLoop_recv f st⟩, ?_⟩
    intro e he
    rw [hsf] at he
    simp only [List.mem_cons] at he
    rcases he with rfl | he
    · exact ⟨rfl, rfl⟩
    · exact benign_of_recv (sfLoop_recv f st e he)

theorem stop_and_flush_benign (f : Nat) (st : St) :
    ∀ e ∈ (stop_and_flush f st).2, benign e :=
  (stop_and_flush_shape f st).2

theorem benign_append {t1 t2 : List Ev} (h1 : ∀ e ∈ t1, benign e)
    (h2 : ∀ e ∈ t2, benign e) : ∀ e ∈ t1 ++ t2, benign e := by
  intro e he
  rcases List.mem_append.mp he with h | h
  · exact h1 e h
  · exact h2 e h

theorem send_line_benign (s : String) (st : St)
    (h : pyStartsWith "go " s = false) : ∀ e ∈ (send_line s st).2, benign e := by
  intro e he
  by_cases hp : st.proc.isSome = true
  · simp only [send_line, hp, if_true, List.mem_singleton] at he
    subst he
    exact ⟨h, rfl⟩
  · simp only [Bool.not_eq_true] at hp
    simp [send_line, hp] at he

theorem wait_until_benign (p : String → Bool) (n : Nat) (st : St) :
    ∀ e ∈ (wait_until p n st).2, benign e :=
  fun e he => benign_of_recv (wait_until_recv p n st e he)

theorem usi_start_benign (spawn : Option Proc) (ed : Bool) (bf rf r2f : Nat)
    (st : St) : ∀ e ∈ (usi_start spawn ed bf rf r2f st).2, benign e := by
  cases spawn with
  | none => intro e he; simp [usi_start] at he
  | some p =>
    cases hed : ed with
    | true =>
      simp only [usi_start, hed, if_true]
      exact benign_append (benign_append (benign_append (benign_append (benign_append (benign_append (benign_append (benign_append (benign_append (benign_append (benign_append (send_line_benign _ _ (by decide))
        (wait_until_benign _ _ _))
        (send_line_benign _ _ (by decide)))
        (send_line_benign _ _ (by decide)))
        (send_line_benign _ _ (by decide)))
        (send_line_benign _ _ (by decide)))
        (send_line_benign _ _ (by decide)))
        (send_line_benign _ _ (by decide)))
        (wait_until_benign _ _ _))
        (send_line_benign _ _ (by decide)))
        (send_line_benign _ _ (by decide)))
        (wait_until_benign _ _ _)
    | false =>
      simp only [usi_start, hed, Bool.false_eq_true, if_false]
      exact benign_append (benign_append (benign_append (benign_append (benign_append (benign_append (benign_append (benign_append (benign_append (benign_append (benign_append (send_line_benign _ _ (by decide))
        (wait_until_benign _ _ _))
        (send_line_benign _ _ (by decide)))
        (send_line_benign _ _ (by decide)))
        (fun e he => by simp at he))
        (send_line_benign _ _ (by decide)))
        (send_line_benign _ _ (by decide)))
        (send_line_benign _ _ (by decide)))
        (wait_until_benign _ _ _))
        (send_line_benign _ _ (by decide)))
        (send_line_benign _ _ (by decide)))
        (wait_until_benign _ _ _)

theorem ensure_alive_benign (spawn : Option Proc) (ed : Bool) (bf rf r2f : Nat)
    (st : St) : ∀ e ∈ (ensure_alive spawn ed bf rf r2f st).2, benign e := by
  cases hp : st.proc with
  | none =>
    simp only [ensure_alive, hp]
    exact usi_start_benign spawn ed bf rf r2f st
  | some p =>
    by_cases hrc : p.returncode = none
    · intro e he
      simp [ensure_alive, hp, hrc] at he
    · simp only [ensure_alive, hp, hrc, if_false]
      exact usi_start_benign spawn ed bf rf r2f st

theorem read_line_none_evs (st : St) (h : (read_line st).1 = none) :
    (read_line st).2.2 = [] := by
  cases hp : st.proc with
  | none => simp [read_line, hp]
  | some p =>
    cases hi : st.input with
    | nil => simp [read_line, hp, hi]
    | cons o rest =>
      cases o with
      | none => simp [read_line, hp, hi]
      | some l => simp [read_line, hp, hi] at h

theorem read_line_some_evs (st : St) (l : String)
    (h : (read_line st).1 = some l) : (read_line st).2.2 = [Ev.recv l] := by
  cases hp : st.proc with
  | none => simp [read_line, hp] at h
  | some p =>
    cases hi : st.input with
    | nil => simp [read_line, hp, hi] at h
    | cons o rest =>
      cases o with
      | none => simp [read_line, hp, hi] at h
      | some l' =>
        simp only [read_line, hp, hi, Option.some.injEq] at h
        subst h
        simp [read_line, hp, hi]

theorem goScan_singleton_noGo (e : Ev) (h : isGoSend e = false) :
    goScan false [e] = some false := by
  by_cases hc : isClearEv e = true
  · simp [goScan, h, hc]
  · simp only [Bool.not_eq_true] at hc
    simp [goScan, h, hc]

theorem faLoop_recv :
    ∀ (n : Nat) (st : St) (m : List (Nat × InfoData)),
      ∀ e ∈ (faLoop n st m).2.2.2, ∃ l, e = Ev.recv l := by
  intro n
  induction n with
  | zero => intro st m e he; simp [faLoop] at he
  | succ n ih =>
    intro st m e he
    rw [faLoop] at he
    rcases hr : read_line st with ⟨r, st1, t1⟩
    rw [hr] at he
    have ht1 : ∀ e ∈ t1, ∃ l, e = Ev.recv l := by
      have := read_line_recv st
      rw [hr] at this
      exact this
    cases r with
    | none =>
      rcases List.mem_append.mp he with he2 | he2
      · exact ht1 e he2
      · exact ih st1 m e he2
    | some l =>
      by_cases h0 : l = ""
      · simp only [h0, if_pos rfl] at he
        rcases List.mem_append.mp he with he2 | he2
        · exact ht1 e he2
        · exact ih st1 m e he2
      · by_cases hb : pyStartsWith "bestmove" l = true
        · simp only [if_neg h0, hb, if_true] at he
          exact ht1 e he
        · simp only [Bool.not_eq_true] at hb
          simp only [if_neg h0, hb, Bool.false_eq_true, if_false] at he
          rcases List.mem_append.mp he with he2 | he2
          · exact ht1 e he2
          · exact ih st1 _ e he2

theorem faLoop_goScan :
    ∀ (n : Nat) (st : St) (m : List (Nat × InfoData)),
      (faLoop n st m).1.isSome = true →
      goScan true (faLoop n st m).2.2.2 = some false := by
  intro n
  induction n with
  | zero => intro st m h; simp [faLoop] at h
  | succ n ih =>
    intro st m h
    simp only [faLoop] at h ⊢
    cases hrv : (read_line st).1 with
    | none =>
      simp only [hrv] at h ⊢
      rw [read_line_none_evs st hrv]
      simpa using ih _ m (by simpa using h)
    | some l =>
      simp only [hrv] at h ⊢
      by_cases h0 : l = ""
      · rw [if_pos h0] at h ⊢
        rw [read_line_some_evs st l hrv, goScan_append]
        have h1 : goScan true [Ev.recv l] = some true := by
          subst h0; decide
        rw [h1]
        simpa using ih _ m (by simpa using h)
      · by_cases hb : pyStartsWith "bestmove" l = true
        · rw [if_neg h0, if_pos hb]
          rw [read_line_some_evs st l hrv]
          have hcl : isClearEv (Ev.recv l) = true := hb
          simp [goScan, hcl, isGoSend]
        · simp only [Bool.not_eq_true] at hb
          have hb2 : ¬pyStartsWith "bestmove" l = true := by simp [hb]
          rw [if_neg h0, if_neg hb2] at h ⊢
          rw [read_line_some_evs st l hrv, goScan_append]
          have hstep : goScan true [Ev.recv l] = some true := by
            have hcl : isClearEv (Ev.recv l) = false := hb
            simp [goScan, hcl, isGoSend]
          rw [hstep]
          simpa using ih _ _ (by simpa using h)

theorem fast_analyze_one_noOut (c : String) (f : Nat) (st : St) :
    ∀ e ∈ (fast_analyze_one c f st).2.2, isOutEv e = false := by
  cases hp : st.proc with
  | none => intro e he; simp [fast_analyze_one, hp] at he
  | some p =>
    intro e he
    simp only [fast_analyze_one, hp, send_line, Option.isSome_some, if_true] at he
    rcases List.mem_append.mp he with he2 | he2
    · rcases List.mem_append.mp he2 with he3 | he3
      · simp only [List.mem_singleton] at he3
        subst he3; rfl
      · simp only [List.mem_singleton] at he3
        subst he3; rfl
    · obtain ⟨l, rfl⟩ := faLoop_recv f _ [] e he2
      rfl

theorem fast_analyze_one_goScan (c : String) (f : Nat) (st : St)
    (hc : pyStartsWith "go " c = false)
    (hok : (fast_analyze_one c f st).1.ok = true) :
    goScan false (fast_analyze_one c f st).2.2 = some false := by
  cases hp : st.proc with
  | none => simp [fast_analyze_one, hp] at hok
  | some p =>
    simp only [fast_analyze_one, hp, send_line, Option.isSome_some, if_true] at hok ⊢
    rw [goScan_append, goScan_append, goScan_singleton_noGo (Ev.send c) hc,
      Option.some_bind]
    have hgo : goScan false [Ev.send "go nodes 150000 multipv 1"] = some true := by
      decide
    rw [hgo, Option.some_bind]
    exact faLoop_goScan f _ [] hok

theorem plyEvs_append (a b : List Ev) : plyEvs (a ++ b) = plyEvs a ++ plyEvs b :=
  List.filterMap_append a b _

theorem plyEvs_nil_of_noOut (t : List Ev) (h : ∀ e ∈ t, isOutEv e = false) :
    plyEvs t = [] := by
  rw [plyEvs, List.filterMap_eq_nil_iff]
  intro e he
  have := h e he
  cases e <;> simp_all [isOutEv]

theorem startsWith_go_of_position (x : String) :
    pyStartsWith "go " ("position " ++ x) = false := by
  have h : ("position " ++ x).toList = 'p' :: ("osition ".toList ++ x.toList) := by
    show ("position " ++ x).data = 'p' :: ("osition ".data ++ x.data)
    rw [String.data_append]
    rfl
  unfold pyStartsWith
  rw [h]
  rfl

theorem batch_pos_cmd_not_go (moves : List String) (i : Nat) :
    pyStartsWith "go " (batch_pos_cmd moves i) = false :=
  startsWith_go_of_position _

theorem batchLoop_plyEvs (cancel overBudget : Nat → Bool) (hb : Bool)
    (moves : List String) (faF sfF : Nat) :
    ∀ (k i : Nat) (st : St),
      plyEvs (batchLoop cancel overBudget hb moves faF sfF k i st).2.1
        = ((batchLoop cancel overBudget hb moves faF sfF k i st).2.2.filter
            (fun p => p.2.ok)).map (fun p => (p.1, flipIfOdd p.1 p.2)) := by
  intro k
  induction k with
  | zero => intro i st; simp [batchLoop, plyEvs]
  | succ k ih =>
    intro i st
    simp only [batchLoop]
    by_cases hc : cancel i = true
    · rw [if_pos hc]
      simp only [List.filter_nil, List.map_nil]
      exact plyEvs_nil_of_noOut _ (fun e he => (stop_and_flush_benign sfF st e he).2)
    · rw [if_neg hc]
      by_cases hbud : (hb && overBudget i) = true
      · rw [if_pos hbud]
        simp [plyEvs]
      · rw [if_neg hbud]
        simp only [plyEvs_append,
          plyEvs_nil_of_noOut _ (fast_analyze_one_noOut (batch_pos_cmd moves i) faF st),
          List.nil_append]
        by_cases hok : (fast_analyze_one (batch_pos_cmd moves i) faF st).1.ok = true
        · rw [if_pos hok]
          have hsing : plyEvs [Ev.outPly i
              (flipIfOdd i (fast_analyze_one (batch_pos_cmd moves i) faF st).1)]
              = [(i, flipIfOdd i (fast_analyze_one (batch_pos_cmd moves i) faF st).1)] := rfl
          rw [hsing, ih (i + 1)]
          simp [List.filter_cons, hok]
        · simp only [Bool.not_eq_true] at hok
          rw [if_neg (by simp [hok])]
          simp only [show plyEvs ([] : List Ev) = [] from rfl, List.nil_append,
            ih (i + 1), List.filter_cons, hok, Bool.false_eq_true, if_false]

theorem batchLoop_results_idx (hb : Bool) (moves : List String) (faF sfF : Nat) :
    ∀ (k i : Nat) (st : St),
      ((batchLoop (fun _ => false) (fun _ => false) hb moves faF sfF k i st).2.2).map
          Prod.fst
        = List.range' i k := by
  intro k
  induction k with
  | zero => intro i st; simp [batchLoop]
  | succ k ih =>
    intro i st
    simp only [batchLoop, Bool.false_eq_true, if_false, Bool.and_false,
      List.map_cons]
    rw [ih (i + 1)]
    rfl

theorem batchLoop_goScan (cancel overBudget : Nat → Bool) (hb : Bool)
    (moves : List String) (faF sfF : Nat) :
    ∀ (k i : Nat) (st : St),
      (∀ p ∈ (batchLoop cancel overBudget hb moves faF sfF k i st).2.2,
        p.2.ok = true) →
      goScan false (batchLoop cancel overBudget hb moves faF sfF k i st).2.1
        = some false := by
  intro k
  induction k with
  | zero => intro i st _; rfl
  | succ k ih =>
    intro i st hall
    simp only [batchLoop] at hall ⊢
    by_cases hc : cancel i = true
    · rw [if_pos hc]
      exact goScan_false_of_noGo _
        (fun e he => (stop_and_flush_benign sfF st e he).1)
    · simp only [Bool.not_eq_true] at hc
      simp only [hc, Bool.false_eq_true, if_false] at hall ⊢
      by_cases hbud : (hb && overBudget i) = true
      · rw [if_pos hbud]; rfl
      · simp only [Bool.not_eq_true] at hbud
        simp only [hbud, Bool.false_eq_true, if_false] at hall ⊢
        have hok : (fast_analyze_one (batch_pos_cmd moves i) faF st).1.ok = true :=
          hall _ (List.mem_cons_self _ _)
        rw [goScan_append, goScan_append,
          fast_analyze_one_goScan _ _ _ (batch_pos_cmd_not_go moves i) hok,
          Option.some_bind, if_pos hok,
          goScan_singleton_noGo (Ev.outPly i _) rfl, Option.some_bind]
        exact ih (i + 1) _ (fun p hp => hall p (List.mem_cons_of_mem _ hp))

/-- **C1, amended.**  Within one `stream_batch_analyze` invocation the
session never has two `go` commands in flight *provided every
`fast_analyze_one` obtains a `bestmove`* (returns `ok`): the trace scans
with no outstanding-`go` violation and ends with no search pending.
(The unamended claim fails when a per-ply search times out, see the
counterexample: no `stop` is sent and the next ply issues a second
`go`.) -/
theorem c1_goInvariant_amended (moves : List String) (hb : Bool)
    (overBudget cancel : Nat → Bool) (spawn : Option Proc) (ed : Bool)
    (bf rf r2f sfF faF : Nat) (st : St)
    (hall : ∀ p ∈ (stream_batch_analyze moves hb overBudget cancel spawn ed
        bf rf r2f sfF faF st).2.2, p.2.ok = true) :
    goScan false (stream_batch_analyze moves hb overBudget cancel spawn ed
        bf rf r2f sfF faF st).2.1 = some false := by
  simp only [stream_batch_analyze] at hall ⊢
  have hpre : goScan false ((ensure_alive spawn ed bf rf r2f st).2
      ++ (stop_and_flush sfF (ensure_alive spawn ed bf rf r2f st).1).2
      ++ [Ev.outStart]) = some false := by
    apply goScan_false_of_noGo
    intro e he
    rcases List.mem_append.mp he with he2 | he2
    · rcases List.mem_append.mp he2 with he3 | he3
      · exact (ensure_alive_benign spawn ed bf rf r2f st e he3).1
      · exact (stop_and_flush_benign _ _ e he3).1
    · simp only [List.mem_singleton] at he2
      subst he2; rfl
  rw [goScan_append, hpre, Option.some_bind]
  exact batchLoop_goScan cancel overBudget hb moves faF sfF _ 0 _ hall

theorem c1_goInvariant_amended_witness :
    goScan false answeredBatchRun.2.1 = some false :=
  c1_goInvariant_amended ["7g7f"] false (fun _ => false) (fun _ => false)
    (some ⟨none⟩) false 0 0 0 0 1
    ⟨some ⟨none⟩, [some "bestmove 7g7f", some "bestmove 3c3d"]⟩ (by decide)

/-- **C5, amended.**  In a `stream_batch_analyze` run with cancellation
never requested and the time budget never exceeded, one `BatchPly` event
is emitted per ply *whose `fast_analyze_one` succeeded* (a failed ply is
skipped silently); when every ply succeeds the emitted indices are
exactly `0, 1, …, N` in strictly increasing order, one per index. -/
theorem c5_batchply_amended (moves : List String) (hb : Bool)
    (spawn : Option Proc) (ed : Bool) (bf rf r2f sfF faF : Nat) (st : St)
    (hall : ∀ p ∈ (stream_batch_analyze moves hb (fun _ => false) (fun _ => false)
        spawn ed bf rf r2f sfF faF st).2.2, p.2.ok = true) :
    (plyEvs (stream_batch_analyze moves hb (fun _ => false) (fun _ => false)
        spawn ed bf rf r2f sfF faF st).2.1).map Prod.fst
      = List.range (moves.length + 1) := by
  simp only [stream_batch_analyze] at hall ⊢
  have h1 : plyEvs (ensure_alive spawn ed bf rf r2f st).2 = [] :=
    plyEvs_nil_of_noOut _ (fun e he => (ensure_alive_benign spawn ed bf rf r2f st e he).2)
  have h2 : plyEvs (stop_and_flush sfF (ensure_alive spawn ed bf rf r2f st).1).2 = [] :=
    plyEvs_nil_of_noOut _ (fun e he => (stop_and_flush_benign _ _ e he).2)
  have h3 : plyEvs [Ev.outStart] = [] := rfl
  rw [plyEvs_append, plyEvs_append, plyEvs_append, h1, h2, h3]
  simp only [List.nil_append]
  rw [batchLoop_plyEvs, List.filter_eq_self.mpr hall, List.map_map]
  have hfst : (Prod.fst ∘ fun p : Nat × FAResult => (p.1, flipIfOdd p.1 p.2))
      = Prod.fst := rfl
  rw [hfst, batchLoop_results_idx hb moves faF sfF (moves.length + 1) 0,
    List.range_eq_range']

theorem c5_batchply_amended_witness :
    (plyEvs answeredBatchRun.2.1).map Prod.fst = List.range 2 :=
  c5_batchply_amended ["7g7f"] false (some ⟨none⟩) false 0 0 0 0 1
    ⟨some ⟨none⟩, [some "bestmove 7g7f", some "bestmove 3c3d"]⟩ (by decide)

/-- **C6.**  The perspective flip of the batch orchestrator is an
involution (negating any `Score`, and flipping a whole per-ply result,
twice restores the original), and in every `batchLoop` run the emitted
`BatchPly` payloads are exactly the successful per-ply results with the
flip applied to every score of the result precisely when the ply index
is odd (`flipIfOdd`). -/
theorem c6_flip_involution :
    (∀ s : Score, negScore (negScore s) = s)
    ∧ (∀ r : FAResult, flipRes (flipRes r) = r)
    ∧ ∀ (cancel overBudget : Nat → Bool) (hb : Bool) (moves : List String)
        (faF sfF k i : Nat) (st : St),
        plyEvs (batchLoop cancel overBudget hb moves faF sfF k i st).2.1
          = ((batchLoop cancel overBudget hb moves faF sfF k i st).2.2.filter
              (fun p => p.2.ok)).map (fun p => (p.1, flipIfOdd p.1 p.2)) := by
  have hinfo : ∀ x : InfoData, flipInfo (flipInfo x) = x := by
    intro x
    cases x with
    | mk mp sc pv => cases sc <;> simp [flipInfo, negScore]
  refine ⟨?_, ?_, ?_⟩
  · intro s; cases s <;> simp [negScore]
  · intro r
    cases r with
    | mk ok bm mpv => simp [flipRes, List.map_map, Function.comp_def, hinfo]
  · intro cancel overBudget hb moves faF sfF k i st
    exact batchLoop_plyEvs cancel overBudget hb moves faF sfF k i st

/-- **C2, amended.**  A line qualifies only if it contains both a `score`
and a `pv` substring — a line with `score` but without `pv` returns
`none` — and every returned `InfoData` carries a parsed score; but the PV
move list is present only when the ` pv\s+(.*)` search matched, so a
qualifying line can yield an `InfoData` without a PV list (see the
counterexample). -/
theorem c2_infoline_amended :
    (∀ l : List Char, containsSub l "score".toList = true →
        containsSub l "pv".toList = false → parse_usi_info l = none)
    ∧ ∀ (l : List Char) (i : InfoData), parse_usi_info l = some i →
        containsSub l "score".toList = true ∧ containsSub l "pv".toList = true
        ∧ (∃ kv, findScore l = some kv) ∧ i.pv = (findPv l).map pyStrip := by
  constructor
  · intro l hs hp
    have hp2 : containsSub l ['p', 'v'] = false := hp
    simp [parse_usi_info, hp2]
  · intro l i h
    cases hfs : findScore l with
    | none => simp [parse_usi_info, hfs] at h
    | some kv =>
      obtain ⟨k, raw⟩ := kv
      cases k with
      | cp =>
        cases hm : pyMul07 raw with
        | none => simp [parse_usi_info, hfs, hm] at h
        | some v =>
          simp [parse_usi_info, hfs, hm] at h
          obtain ⟨⟨hs, hp⟩, h2⟩ := h
          subst h2
          exact ⟨hs, hp, ⟨(SKind.cp, raw), rfl⟩, rfl⟩
      | mate =>
        simp [parse_usi_info, hfs] at h
        obtain ⟨⟨hs, hp⟩, h2⟩ := h
        subst h2
        exact ⟨hs, hp, ⟨(SKind.mate, raw), rfl⟩, rfl⟩

theorem c2_infoline_amended_witness :
    parse_usi_info "info score cp 10".toList = none
    ∧ (containsSub "info multipv 1 score mate 3 pv G*5b".toList "score".toList = true
        ∧ containsSub "info multipv 1 score mate 3 pv G*5b".toList "pv".toList = true
        ∧ (∃ kv, findScore "info multipv 1 score mate 3 pv G*5b".toList = some kv)
        ∧ (InfoData.mk 1 (Score.mate 3) (some "G*5b".toList)).pv
            = (findPv "info multipv 1 score mate 3 pv G*5b".toList).map pyStrip) :=
  ⟨c2_infoline_amended.1 "info score cp 10".toList (by decide) (by decide),
   c2_infoline_amended.2 "info multipv 1 score mate 3 pv G*5b".toList
     ⟨1, Score.mate 3, some "G*5b".toList⟩ (by decide)⟩

/-- **C4, amended.**  The exposed centipawn score is the binary64
evaluation of `int(cp * 0.7)` (`pyMul07`), applied exactly once at parse
time; this agrees with exact 0.7-scaling truncated toward zero at
`cp = 100` (→ 70, as in the spec scenario) but not everywhere — at
`cp = 90` the code exposes 62 while exact scaling gives 63 (see the
counterexample). -/
theorem c4_scale_amended :
    (∀ (l : List Char) (i : InfoData) (raw : Int),
        parse_usi_info l = some i → findScore l = some (SKind.cp, raw) →
        ∃ v, pyMul07 raw = some v ∧ i.score = Score.cp v)
    ∧ pyMul07 100 = some 70
    ∧ pyMul07 90 = some 62
    ∧ exactScale07 100 = 70
    ∧ parse_usi_info "info multipv 1 score cp 100 pv 7g7f 3c3d".toList
        = some { multipv := 1, score := Score.cp 70, pv := some "7g7f 3c3d".toList } := by
  refine ⟨?_, by decide, by decide, by decide, by decide⟩
  intro l i raw h hfs
  cases hm : pyMul07 raw with
  | none => simp [parse_usi_info, hfs, hm] at h
  | some v =>
    refine ⟨v, rfl, ?_⟩
    simp [parse_usi_info, hfs, hm] at h
    obtain ⟨-, h2⟩ := h
    subst h2
    rfl

theorem c4_scale_amended_witness :
    ∃ v, pyMul07 100 = some v
      ∧ (InfoData.mk 1 (Score.cp 70) (some "7g7f 3c3d".toList)).score = Score.cp v :=
  c4_scale_amended.1 "info multipv 1 score cp 100 pv 7g7f 3c3d".toList
    ⟨1, Score.cp 70, some "7g7f 3c3d".toList⟩ 100 (by decide) (by decide)

/-- **C7.**  When the cancellation flag is observed set at the top of a
`stream_analyze` read iteration, that iteration is exactly one
`stop_and_flush` call: the trace contains exactly one `stop` command,
no consumer-visible event at all is emitted after the flag is observed,
and the stream terminates (the loop returns). -/
theorem c7_cancel_stream (cancel : Nat → Bool) (g : Bool) (sfF n j : Nat) (st : St)
    (hp : st.proc.isSome = true) (hc : cancel j = true) :
    streamAnalyzeLoop cancel g sfF (n + 1) j st = stop_and_flush sfF st
    ∧ (streamAnalyzeLoop cancel g sfF (n + 1) j st).2.countP isOutEv = 0
    ∧ (streamAnalyzeLoop cancel g sfF (n + 1) j st).2.countP
        (fun e => e == Ev.send "stop") = 1 := by
  have heq : streamAnalyzeLoop cancel g sfF (n + 1) j st = stop_and_flush sfF st := by
    simp only [streamAnalyzeLoop]
    rw [if_pos hc]
  obtain ⟨r, hsf, hrecv⟩ := (stop_and_flush_shape sfF st).1 hp
  refine ⟨heq, ?_, ?_⟩
  · rw [heq, hsf, List.countP_cons]
    have hz : r.countP isOutEv = 0 := by
      rw [List.countP_eq_zero]
      intro e he
      obtain ⟨l, rfl⟩ := hrecv e he
      simp [isOutEv]
    rw [hz]
    decide
  · rw [heq, hsf, List.countP_cons]
    have hz : r.countP (fun e => e == Ev.send "stop") = 0 := by
      rw [List.countP_eq_zero]
      intro e he
      obtain ⟨l, rfl⟩ := hrecv e he
      simp
    rw [hz]
    decide

theorem c7_cancel_stream_witness :
    streamAnalyzeLoop (fun _ => true) false 0 1 0 ⟨some ⟨none⟩, []⟩
        = stop_and_flush 0 ⟨some ⟨none⟩, []⟩
    ∧ (streamAnalyzeLoop (fun _ => true) false 0 1 0 ⟨some ⟨none⟩, []⟩).2.countP
        isOutEv = 0
    ∧ (streamAnalyzeLoop (fun _ => true) false 0 1 0 ⟨some ⟨none⟩, []⟩).2.countP
        (fun e => e == Ev.send "stop") = 1 :=
  c7_cancel_stream (fun _ => true) false 0 0 0 ⟨some ⟨none⟩, []⟩ (by decide) rfl

/-- **C8, amended.**  On a per-read timeout a keepalive event is emitted
*unconditionally* — the liveness check runs only after the yield — and
when the process has already exited the stream ends immediately after
that keepalive (rather than instead of it); a read timeout is never
surfaced as an error (no error event ever appears in a read-loop
trace). -/
theorem c8_keepalive_amended :
    (∀ (cancel : Nat → Bool) (g : Bool) (sfF n j : Nat) (p : Proc)
        (inp : List (Option String)),
        cancel j = false →
        ∃ rest,
          (streamAnalyzeLoop cancel g sfF (n + 1) j ⟨some p, none :: inp⟩).2
            = Ev.outKeepalive :: rest
          ∧ (p.returncode.isSome = true → rest = []))
    ∧ ∀ (cancel : Nat → Bool) (g : Bool) (sfF n j : Nat) (st : St) (s : String),
        Ev.outErr s ∉ (streamAnalyzeLoop cancel g sfF n j st).2 := by
  constructor
  · intro cancel g sfF n j p inp hc
    simp only [streamAnalyzeLoop]
    rw [if_neg (by simp [hc])]
    simp only [read_line]
    by_cases hrc : p.returncode.isSome = true
    · refine ⟨[], ?_, fun _ => rfl⟩
      rw [if_pos hrc]
      rfl
    · refine ⟨(streamAnalyzeLoop cancel g sfF n (j + 1)
          { proc := some p, input := inp }).2, ?_, fun habs => absurd habs hrc⟩
      rw [if_neg hrc]
      rfl
  · intro cancel g sfF n
    induction n with
    | zero =>
      intro j st s h
      simp [streamAnalyzeLoop] at h
    | succ n ih =>
      intro j st s h
      simp only [streamAnalyzeLoop] at h
      by_cases hc : cancel j = true
      · rw [if_pos hc] at h
        exact absurd ((stop_and_flush_benign sfF st _ h).2) (by simp [isOutEv])
      · rw [if_neg hc] at h
        cases hrv : (read_line st).1 with
        | none =>
          simp only [hrv] at h
          rw [read_line_none_evs st hrv] at h
          cases hpr : (read_line st).2.1.proc with
          | some p =>
            simp only [hpr] at h
            by_cases hrc : p.returncode.isSome = true
            · rw [if_pos hrc] at h
              simp at h
            · rw [if_neg hrc] at h
              rcases List.mem_append.mp h with h2 | h2
              · simp at h2
              · exact ih (j + 1) _ s h2
          | none =>
            simp only [hpr] at h
            rcases List.mem_append.mp h with h2 | h2
            · simp at h2
            · exact ih (j + 1) _ s h2
        | some l =>
          simp only [hrv] at h
          rw [read_line_some_evs st l hrv] at h
          by_cases h0 : l = ""
          · rw [if_pos h0] at h
            simp at h
          · rw [if_neg h0] at h
            by_cases hbm : pyStartsWith "bestmove" l = true
            · rw [if_pos hbm] at h
              cases hsp : splitWS l.toList with
              | nil => simp only [hsp] at h; simp at h
              | cons a tl =>
                cases tl with
                | nil => simp only [hsp] at h; simp at h
                | cons m tl2 => simp only [hsp] at h; simp at h
            · rw [if_neg hbm] at h
              cases hpi : parse_usi_info l.toList with
              | some info =>
                simp only [hpi] at h
                rcases List.mem_append.mp h with h2 | h2
                · simp at h2
                · exact ih (j + 1) _ s h2
              | none =>
                simp only [hpi] at h
                rcases List.mem_append.mp h with h2 | h2
                · simp at h2
                · exact ih (j + 1) _ s h2

theorem c8_keepalive_amended_witness :
    ∃ rest,
      (streamAnalyzeLoop (fun _ => false) false 0 1 0
          ⟨some ⟨some 0⟩, [none]⟩).2 = Ev.outKeepalive :: rest
      ∧ ((⟨some 0⟩ : Proc).returncode.isSome = true → rest = []) :=
  c8_keepalive_amended.1 (fun _ => false) false 0 0 0 ⟨some 0⟩ [] rfl

theorem recvLines_append (a b : List Ev) :
    recvLines (a ++ b) = recvLines a ++ recvLines b := by
  simp [recvLines]

theorem recvLines_recv_cons (l : String) (t : List Ev) :
    recvLines (Ev.recv l :: t) = l :: recvLines t := rfl

theorem recvLines_send_cons (s : String) (t : List Ev) :
    recvLines (Ev.send s :: t) = recvLines t := rfl

/-- The `mate_found` update of one engine line equals the line's mate
signal (defaulting to the previous flag). -/
theorem tsume_mf_step (l : String) (mf : Bool) :
    (if containsSub l.toList "score mate -".toList then true
     else if containsSub l.toList "score mate +".toList then false
     else mf) = (mateLineSignal l).getD mf := by
  unfold mateLineSignal
  by_cases h1 : containsSub l.toList "score mate -".toList = true
  · rw [if_pos h1, if_pos h1]
    rfl
  · rw [if_neg h1, if_neg h1]
    by_cases h2 : containsSub l.toList "score mate +".toList = true
    · rw [if_pos h2, if_pos h2]
      rfl
    · rw [if_neg h2, if_neg h2]
      rfl

/-- The `mate_found` flag returned by the tsume read loop is the most
recent mate signal among the received lines (defaulting to the incoming
flag). -/
theorem tsumeLoop_mf :
    ∀ (n : Nat) (mf : Bool) (st : St),
      (tsumeLoop n mf st).2.1
        = ((recvLines (tsumeLoop n mf st).2.2.2).filterMap mateLineSignal).getLastD mf := by
  intro n
  induction n with
  | zero => intro mf st; rfl
  | succ n ih =>
    intro mf st
    simp only [tsumeLoop]
    cases hrv : (read_line st).1 with
    | none =>
      simp only [hrv]
      rw [read_line_none_evs st hrv]
      cases hpr : (read_line st).2.1.proc with
      | some p =>
        simp only [hpr]
        by_cases hrc : p.returncode.isSome = true
        · rw [if_pos hrc]
          rfl
        · rw [if_neg hrc]
          simp only [List.nil_append]
          exact ih mf _
      | none =>
        simp only [hpr, List.nil_append]
        exact ih mf _
    | some l =>
      simp only [hrv]
      rw [read_line_some_evs st l hrv]
      by_cases h0 : l = ""
      · rw [if_pos h0]
        subst h0
        have hms : mateLineSignal "" = none := by decide
        cases hpr : (read_line st).2.1.proc with
        | some p =>
          simp only [hpr]
          by_cases hrc : p.returncode.isSome = true
          · rw [if_pos hrc]
            simp [recvLines, List.filterMap_cons, hms]
          · rw [if_neg hrc]
            simp only [List.singleton_append, recvLines_recv_cons,
              List.filterMap_cons, hms]
            exact ih mf _
        | none =>
          simp only [hpr, List.singleton_append, recvLines_recv_cons,
            List.filterMap_cons, hms]
          exact ih mf _
      · rw [if_neg h0]
        rw [tsume_mf_step]
        by_cases hb : pyStartsWith "bestmove" l = true
        · rw [if_pos hb]
          cases hml : mateLineSignal l with
          | none => simp [recvLines, List.filterMap_cons, hml]
          | some b => simp [recvLines, List.filterMap_cons, hml, List.getLastD_cons]
        · rw [if_neg hb]
          simp only [List.singleton_append, recvLines_recv_cons, List.filterMap_cons]
          cases hml : mateLineSignal l with
          | none =>
            simp only [hml, Option.getD_none]
            exact ih mf _
          | some b =>
            simp only [hml, Option.getD_some, List.getLastD_cons]
            exact ih b _

theorem classifyTsume_bestmove (bm : String) (mf : Bool) :
    (classifyTsume bm mf).bestmove = some bm := by
  unfold classifyTsume
  split_ifs <;> simp [*]

theorem classifyTsume_status_mem (bm : String) (mf : Bool) :
    (classifyTsume bm mf).status ∈ (["win", "lose", "continue", "incorrect"] : List String) := by
  unfold classifyTsume
  split_ifs <;> simp

theorem classifyTsume_status (bm : String) (mf : Bool) :
    (classifyTsume bm mf).status
      = (if bm = "resign" then "win" else if bm = "win" then "lose"
         else if mf = true then "continue" else "incorrect") := by
  unfold classifyTsume
  split_ifs <;> rfl

/-- **C9, amended.**  On an idle engine, when `solve_tsume_hand` obtains a
bestmove before its cap: `resign` maps to `win`, `win` to `lose`, and
otherwise the status is `continue` exactly when the *most recent*
`score mate` line of the run favours the attacker (`score mate -`) and
`incorrect` otherwise (a later `score mate +` overrides an earlier
favourable line, see the counterexample); the status is always one of the
four outcomes. -/
theorem c9_tsume_amended (sfen : String) (spawn : Option Proc) (ed : Bool)
    (bf rf r2f sfF isr2F loopF : Nat) (inp : List (Option String)) (b : String)
    (hb : (solve_tsume_hand sfen spawn ed bf rf r2f 0 sfF isr2F loopF
        ⟨some ⟨none⟩, inp⟩).1.bestmove = some b) :
    (solve_tsume_hand sfen spawn ed bf rf r2f 0 sfF isr2F loopF
        ⟨some ⟨none⟩, inp⟩).1.status
      = (if b = "resign" then "win"
         else if b = "win" then "lose"
         else if lastMateSignal (recvLines
             (solve_tsume_hand sfen spawn ed bf rf r2f 0 sfF isr2F loopF
               ⟨some ⟨none⟩, inp⟩).2.2) = true then "continue"
         else "incorrect")
    ∧ (solve_tsume_hand sfen spawn ed bf rf r2f 0 sfF isr2F loopF
        ⟨some ⟨none⟩, inp⟩).1.status
        ∈ (["win", "lose", "continue", "incorrect"] : List String) := by
  have he1 : ensure_alive spawn ed bf rf r2f ⟨some ⟨none⟩, inp⟩
      = (⟨some ⟨none⟩, inp⟩, []) := rfl
  have hsl : ∀ s : String, send_line s (⟨some ⟨none⟩, inp⟩ : St)
      = (⟨some ⟨none⟩, inp⟩, [Ev.send s]) := fun s => rfl
  have hwu : wait_until (fun l => containsSub l.toList "readyok".toList) 0
      (⟨some ⟨none⟩, inp⟩ : St) = (⟨some ⟨none⟩, inp⟩, []) := rfl
  simp only [solve_tsume_hand, he1, hsl, hwu, if_true] at hb ⊢
  have hsig : lastMateSignal
      (recvLines (tsumeLoop loopF false (⟨some ⟨none⟩, inp⟩ : St)).2.2.2)
      = (tsumeLoop loopF false (⟨some ⟨none⟩, inp⟩ : St)).2.1 :=
    (tsumeLoop_mf loopF false _).symm
  cases hw : (tsumeLoop loopF false (⟨some ⟨none⟩, inp⟩ : St)).1 with
  | crashed => simp [hw] at hb
  | finished obm =>
    cases obm with
    | none => simp [hw] at hb
    | some bm =>
      simp only [hw, List.nil_append, List.append_nil, List.cons_append,
        List.singleton_append, recvLines_send_cons] at hb ⊢
      have hbb : b = bm := by
        rw [classifyTsume_bestmove] at hb
        injection hb with h4
        exact h4.symm
      subst hbb
      refine ⟨?_, classifyTsume_status_mem b _⟩
      rw [classifyTsume_status, hsig]

theorem c9_tsume_amended_witness :
    resignTsumeRun.1.status
      = (if "resign" = "resign" then "win"
         else if "resign" = "win" then "lose"
         else if lastMateSignal (recvLines resignTsumeRun.2.2) = true then "continue"
         else "incorrect")
    ∧ resignTsumeRun.1.status ∈ (["win", "lose", "continue", "incorrect"] : List String) :=
  c9_tsume_amended "9/9/9/9/9/9/9/9/9 b - 1" (some ⟨none⟩) false 0 0 0 0 0 2
    [some "bestmove resign"] "resign" (by decide)

/-! ### String lemmas for `is_gote_turn` (C10) -/

theorem prefAt_append_right :
    ∀ (S t Y : List Char), prefAt S t = true → prefAt S (t ++ Y) = true := by
  intro S
  induction S with
  | nil => intro t Y _; rfl
  | cons a as ih =>
    intro t Y h
    cases t with
    | nil => simp [prefAt] at h
    | cons b bs =>
      simp only [prefAt, Bool.and_eq_true] at h
      simp only [List.cons_append, prefAt, h.1, Bool.true_and]
      exact ih bs Y h.2

theorem containsSub_nil_pat : ∀ l : List Char, containsSub l [] = true := by
  intro l
  cases l with
  | nil => rfl
  | cons c t => rfl

theorem containsSub_append_left :
    ∀ (X Y S : List Char), containsSub X S = true → containsSub (X ++ Y) S = true := by
  intro X
  induction X with
  | nil =>
    intro Y S h
    cases S with
    | nil => exact containsSub_nil_pat Y
    | cons s S2 => exact absurd h (by simp [containsSub, prefAt])
  | cons c t ih =>
    intro Y S h
    simp only [containsSub, Bool.or_eq_true] at h
    rcases h with h1 | h1
    · have h2 := prefAt_append_right S (c :: t) Y h1
      simp only [List.cons_append] at h2
      simp [containsSub, List.append_eq, h2]
    · have h2 := ih Y S h1
      simp [containsSub, List.append_eq, h2]

theorem prefAt_self_append :
    ∀ (pat rest : List Char), prefAt pat (pat ++ rest) = true := by
  intro pat
  induction pat with
  | nil => intro rest; rfl
  | cons a as ih =>
    intro rest
    simp only [List.cons_append, prefAt, beq_self_eq_true, Bool.true_and]
    exact ih rest

theorem dropThroughSub_self_append (pat rest : List Char) :
    dropThroughSub (pat ++ rest) pat = some ((pat ++ rest).drop pat.length) := by
  cases pat with
  | nil =>
    cases rest with
    | nil => rfl
    | cons c t => rfl
  | cons a as =>
    have h := prefAt_self_append (a :: as) rest
    simp only [List.cons_append] at h ⊢
    simp only [dropThroughSub]
    rw [if_pos h]

theorem dropThroughSub_append_hfree (a : Char) :
    ∀ (P : List Char), (∀ c ∈ P, c ≠ a) → ∀ (X sub : List Char),
      dropThroughSub (P ++ X) (a :: sub) = dropThroughSub X (a :: sub) := by
  intro P
  induction P with
  | nil => intro _ X sub; rfl
  | cons c P ih =>
    intro h X sub
    have hc : (a == c) = false :=
      beq_eq_false_iff_ne.mpr (Ne.symm (h c (List.mem_cons_self _ _)))
    have hpf : prefAt (a :: sub) (c :: (P ++ X)) = false := by
      simp [prefAt, hc]
    simp only [List.cons_append, dropThroughSub, List.append_eq, hpf,
      Bool.false_eq_true, if_false]
    exact ih (fun d hd => h d (List.mem_cons_of_mem _ hd)) X sub

theorem takeUntilSub_hfree (a : Char) :
    ∀ (l : List Char), (∀ c ∈ l, c ≠ a) → ∀ sub, takeUntilSub l (a :: sub) = l := by
  intro l
  induction l with
  | nil => intro _ sub; rfl
  | cons c t ih =>
    intro h sub
    have hc : (a == c) = false :=
      beq_eq_false_iff_ne.mpr (Ne.symm (h c (List.mem_cons_self _ _)))
    have hpf : prefAt (a :: sub) (c :: t) = false := by simp [prefAt, hc]
    simp only [takeUntilSub, hpf, Bool.false_eq_true, if_false, List.cons.injEq, true_and]
    exact ih (fun d hd => h d (List.mem_cons_of_mem _ hd)) sub

theorem dropThroughSub_isSome :
    ∀ (l sub : List Char), containsSub l sub = true →
      (dropThroughSub l sub).isSome = true := by
  intro l
  induction l with
  | nil =>
    intro sub h
    simp only [containsSub] at h
    simp only [dropThroughSub]
    rw [if_pos h]
    rfl
  | cons c t ih =>
    intro sub h
    simp only [containsSub, Bool.or_eq_true] at h
    simp only [dropThroughSub]
    by_cases hp : prefAt sub (c :: t) = true
    · rw [if_pos hp]
      rfl
    · rw [if_neg hp]
      rcases h with h1 | h1
      · exact absurd h1 hp
      · exact ih sub h1

theorem mem_joinTok :
    ∀ (ms : List (List Char)) (c : Char), c ∈ joinTok ms →
      c = ' ' ∨ ∃ t ∈ ms, c ∈ t := by
  intro ms
  induction ms with
  | nil => intro c hc; simp [joinTok] at hc
  | cons t ms ih =>
    intro c hc
    by_cases hms : ms = []
    · subst hms
      exact Or.inr ⟨t, List.mem_cons_self _ _, hc⟩
    · have hj : joinTok (t :: ms) = t ++ ' ' :: joinTok ms := by
        cases ms with
        | nil => exact absurd rfl hms
        | cons a as => rfl
      rw [hj] at hc
      rcases List.mem_append.mp hc with h1 | h1
      · exact Or.inr ⟨t, List.mem_cons_self _ _, h1⟩
      · rcases List.mem_cons.mp h1 with h2 | h2
        · exact Or.inl h2
        · rcases ih c h2 with h3 | ⟨u, hu, hcu⟩
          · exact Or.inl h3
          · exact Or.inr ⟨u, List.mem_cons_of_mem _ hu, hcu⟩

theorem foldr_wsFold_nonspace :
    ∀ (t : List Char), (∀ c ∈ t, pySpace c = false) →
      ∀ (X : List Char) (R : List (List Char)),
        t.foldr wsFold (X :: R) = (t ++ X) :: R := by
  intro t
  induction t with
  | nil => intro _ X R; rfl
  | cons c t ih =>
    intro hns X R
    have hc : pySpace c = false := hns c (List.mem_cons_self _ _)
    have ih2 := ih (fun d hd => hns d (List.mem_cons_of_mem _ hd)) X R
    simp only [List.foldr_cons, ih2, wsFold, hc, Bool.false_eq_true, if_false,
      List.cons_append]

theorem foldr_wsFold_nonspace_nil :
    ∀ (t : List Char), t ≠ [] → (∀ c ∈ t, pySpace c = false) →
      t.foldr wsFold [] = [t] := by
  intro t
  induction t with
  | nil => intro h _; exact absurd rfl h
  | cons c t ih =>
    intro _ hns
    have hc : pySpace c = false := hns c (List.mem_cons_self _ _)
    by_cases ht : t = []
    · subst ht
      simp [wsFold, hc]
    · have ih2 := ih ht (fun d hd => hns d (List.mem_cons_of_mem _ hd))
      simp only [List.foldr_cons, ih2, wsFold, hc, Bool.false_eq_true, if_false]

theorem foldr_wsFold_joinTok :
    ∀ (ms : List (List Char)), (∀ t ∈ ms, goodTok t) → ms ≠ [] →
      (joinTok ms).foldr wsFold [] = ms := by
  intro ms
  induction ms with
  | nil => intro _ h; exact absurd rfl h
  | cons t ms ih =>
    intro hg _
    obtain ⟨hne, hns⟩ := hg t (List.mem_cons_self _ _)
    by_cases hms : ms = []
    · subst hms
      exact foldr_wsFold_nonspace_nil t hne hns
    · have hj : joinTok (t :: ms) = t ++ ' ' :: joinTok ms := by
        cases ms with
        | nil => exact absurd rfl hms
        | cons a as => rfl
      have hsp : wsFold ' ' ((joinTok ms).foldr wsFold [])
          = [] :: (joinTok ms).foldr wsFold [] := rfl
      rw [hj, List.foldr_append, List.foldr_cons, hsp,
        ih (fun u hu => hg u (List.mem_cons_of_mem _ hu)) hms,
        foldr_wsFold_nonspace t hns [] ms, List.append_nil]

theorem splitWS_joinTok (ms : List (List Char)) (hg : ∀ t ∈ ms, goodTok t)
    (hne : ms ≠ []) : splitWS (joinTok ms) = ms := by
  unfold splitWS
  rw [foldr_wsFold_joinTok ms hg hne]
  apply List.filter_eq_self.mpr
  intro t ht
  have h1 := (hg t ht).1
  cases t with
  | nil => exact absurd rfl h1
  | cons a b => rfl

theorem joinTok_head_nonspace (ms : List (List Char)) (hg : ∀ t ∈ ms, goodTok t)
    (hne : ms ≠ []) :
    ∃ (c : Char) (u : List Char), joinTok ms = c :: u ∧ pySpace c = false := by
  cases ms with
  | nil => exact absurd rfl hne
  | cons t rest =>
    obtain ⟨htne, htns⟩ := hg t (List.mem_cons_self _ _)
    cases t with
    | nil => exact absurd rfl htne
    | cons c t2 =>
      have hc := htns c (List.mem_cons_self _ _)
      cases rest with
      | nil => exact ⟨c, t2, rfl, hc⟩
      | cons a as => exact ⟨c, t2 ++ ' ' :: joinTok (a :: as), rfl, hc⟩

theorem joinTok_last_nonspace :
    ∀ (ms : List (List Char)), (∀ t ∈ ms, goodTok t) → ms ≠ [] →
      ∃ (u : List Char) (c : Char), joinTok ms = u ++ [c] ∧ pySpace c = false := by
  intro ms
  induction ms with
  | nil => intro _ h; exact absurd rfl h
  | cons t ms ih
  => intro hg _
     by_cases hms : ms = []
     · subst hms
       obtain ⟨hne2, hns2⟩ := hg t (List.mem_cons_self _ _)
       exact ⟨t.dropLast, t.getLast hne2, (List.dropLast_append_getLast hne2).symm,
         hns2 _ (List.getLast_mem hne2)⟩
     · obtain ⟨u, c, hj, hc⟩ := ih (fun x hx => hg x (List.mem_cons_of_mem _ hx)) hms
       have hjoin : joinTok (t :: ms) = t ++ ' ' :: joinTok ms := by
         cases ms with
         | nil => exact absurd rfl hms
         | cons a as => rfl
       exact ⟨t ++ ' ' :: u, c, by rw [hjoin, hj]; simp, hc⟩

theorem pyStrip_space_join (ms : List (List Char)) (hg : ∀ t ∈ ms, goodTok t)
    (hne : ms ≠ []) : pyStrip (' ' :: joinTok ms) = joinTok ms := by
  obtain ⟨c, u, hj, hc⟩ := joinTok_head_nonspace ms hg hne
  obtain ⟨u2, c2, hj2, hc2⟩ := joinTok_last_nonspace ms hg hne
  unfold pyStrip
  have hd1 : List.dropWhile pySpace (' ' :: joinTok ms)
      = List.dropWhile pySpace (joinTok ms) := by
    rw [List.dropWhile_cons, if_pos (show pySpace ' ' = true from rfl)]
  have hd2 : List.dropWhile pySpace (joinTok ms) = joinTok ms := by
    rw [hj, List.dropWhile_cons, if_neg (by simp [hc])]
  rw [hd1, hd2, hj2, List.reverse_append, List.reverse_singleton,
    List.singleton_append, List.dropWhile_cons, if_neg (by simp [hc2]),
    List.reverse_cons, List.reverse_reverse]

/-- **C10.**  `is_gote_turn` is total (the only statement outside the
`try` block cannot raise: whenever the `startpos` branch takes the
`split("moves")[1]` path the `moves` substring is present, so the index
exists; the sfen branch catches all its errors) and defaults to no-flip:
it returns `true` exactly for a well-formed `startpos` command with an
odd number of move tokens, or an `sfen` command whose side-to-move field
reads `w`; for a `startpos` command without moves (or with an empty move
list), and for any string with neither `startpos` nor `sfen`, it returns
`false`.  With the flip flag `false`, every `InfoLine` the read loop
emits is exactly a `parse_usi_info` result of a received line —
unflipped, from the first player's perspective. -/
theorem c10_is_gote_total :
    (∀ s : String, (is_gote_turnE s).isSome = true)
    ∧ (∀ ms : List (List Char), (∀ t ∈ ms, goodTok t) →
        (∀ t ∈ ms, ∀ c ∈ t, c ≠ 'm') → ms ≠ [] →
        is_gote_turn (String.mk ("position startpos moves ".toList ++ joinTok ms))
          = decide (ms.length % 2 = 1))
    ∧ is_gote_turn "position startpos" = false
    ∧ is_gote_turn "position startpos moves" = false
    ∧ (∀ s : String, containsSub s.toList "startpos".toList = false →
        containsSub s.toList "sfen".toList = true →
        is_gote_turn s = (match sfenTurnTok s.toList with
                          | none => false
                          | some turn => turn == "w".toList))
    ∧ (∀ s : String, containsSub s.toList "startpos".toList = false →
        containsSub s.toList "sfen".toList = false → is_gote_turn s = false)
    ∧ ∀ (cancel : Nat → Bool) (sfF n j : Nat) (st : St) (i : InfoData),
        Ev.outInfo i ∈ (streamAnalyzeLoop cancel false sfF n j st).2 →
        ∃ l : String, parse_usi_info l.toList = some i := by
  have hidO : ∀ (x y : Option Bool), (if (true : Bool) then x else y) = x :=
    fun x y => rfl
  have hidF : ∀ (x y : Option Bool), (if (false : Bool) then x else y) = y :=
    fun x y => rfl
  refine ⟨?_, ?_, by decide, by decide, ?_, ?_, ?_⟩
  · intro s
    by_cases h1 : containsSub s.toList "startpos".toList = true
    · by_cases h2 : containsSub s.toList "moves".toList = true
      · have h3 := dropThroughSub_isSome s.toList "moves".toList h2
        cases hd : dropThroughSub s.toList "moves".toList with
        | none => rw [hd] at h3; simp at h3
        | some rest =>
          simp only [is_gote_turnE, h1, h2, Bool.not_true, hidO, hidF, hd]
          by_cases h4 : (pyStrip (takeUntilSub rest "moves".toList)).isEmpty = true
          · simp only [h4, hidO]
            rfl
          · simp only [Bool.not_eq_true] at h4
            simp only [h4, hidF]
            rfl
      · simp only [Bool.not_eq_true] at h2
        simp only [is_gote_turnE, h1, h2, Bool.not_false, hidO]
        rfl
    · simp only [Bool.not_eq_true] at h1
      by_cases h2 : containsSub s.toList "sfen".toList = true
      · simp only [is_gote_turnE, h1, h2, hidO, hidF]
        rfl
      · simp only [Bool.not_eq_true] at h2
        simp only [is_gote_turnE, h1, h2, hidF]
        rfl
  · intro ms hg hm hne
    have hJm : ∀ c ∈ joinTok ms, c ≠ 'm' := by
      intro c hcJ
      rcases mem_joinTok ms c hcJ with h1 | ⟨t, ht, hct⟩
      · subst h1; decide
      · exact hm t ht c hct
    obtain ⟨ch, u, hjh, hch⟩ := joinTok_head_nonspace ms hg hne
    have htl : (String.mk ("position startpos moves ".toList ++ joinTok ms)).toList
        = "position startpos moves ".toList ++ joinTok ms := rfl
    have hsp : containsSub ("position startpos moves ".toList ++ joinTok ms)
        "startpos".toList = true :=
      containsSub_append_left _ _ _ (by decide)
    have hmv : containsSub ("position startpos moves ".toList ++ joinTok ms)
        "moves".toList = true :=
      containsSub_append_left _ _ _ (by decide)
    have hN : ("moves".toList : List Char) = 'm' :: "oves".toList := rfl
    have hP : ∀ c ∈ ("position startpos ".toList : List Char), c ≠ 'm' := by decide
    have hLassoc : "position startpos moves ".toList ++ joinTok ms
        = "position startpos ".toList ++ ("moves".toList ++ (' ' :: joinTok ms)) := rfl
    have hdrop : dropThroughSub ("position startpos moves ".toList ++ joinTok ms)
        "moves".toList = some (' ' :: joinTok ms) := by
      rw [hLassoc, hN, dropThroughSub_append_hfree 'm' _ hP, ← hN,
        dropThroughSub_self_append]
      rfl
    have htake : takeUntilSub (' ' :: joinTok ms) "moves".toList
        = ' ' :: joinTok ms := by
      rw [hN]
      apply takeUntilSub_hfree
      intro c hcm
      rcases List.mem_cons.mp hcm with h1 | h1
      · subst h1; decide
      · exact hJm c h1
    have hstrip : pyStrip (' ' :: joinTok ms) = joinTok ms :=
      pyStrip_space_join ms hg hne
    have hsplit : splitWS (joinTok ms) = ms := splitWS_joinTok ms hg hne
    have hjE : (joinTok ms).isEmpty = false := by rw [hjh]; rfl
    simp only [is_gote_turn, is_gote_turnE, htl, hsp, hmv, Bool.not_true, hidO, hidF,
      hdrop, htake, hstrip, hjE, hsplit, Option.getD_some]
    rcases Nat.mod_two_eq_zero_or_one ms.length with h2 | h2 <;> simp [h2]
  · intro s h1 h2
    simp only [is_gote_turn, is_gote_turnE, h1, h2, hidO, hidF, if_true,
      Option.getD_some]
  · intro s h1 h2
    simp only [is_gote_turn, is_gote_turnE, h1, h2, hidF, if_true, Option.getD_some]
  · intro cancel sfF n
    induction n with
    | zero =>
      intro j st i h
      simp [streamAnalyzeLoop] at h
    | succ n ih =>
      intro j st i h
      simp only [streamAnalyzeLoop] at h
      by_cases hc : cancel j = true
      · rw [if_pos hc] at h
        exact absurd ((stop_and_flush_benign sfF st _ h).2) (by simp [isOutEv])
      · rw [if_neg hc] at h
        cases hrv : (read_line st).1 with
        | none =>
          simp only [hrv] at h
          rw [read_line_none_evs st hrv] at h
          cases hpr : (read_line st).2.1.proc with
          | some p =>
            simp only [hpr] at h
            by_cases hrc : p.returncode.isSome = true
            · rw [if_pos hrc] at h
              simp at h
            · rw [if_neg hrc] at h
              rcases List.mem_append.mp h with h2 | h2
              · simp at h2
              · exact ih (j + 1) _ i h2
          | none =>
            simp only [hpr] at h
            rcases List.mem_append.mp h with h2 | h2
            · simp at h2
            · exact ih (j + 1) _ i h2
        | some l =>
          simp only [hrv] at h
          rw [read_line_some_evs st l hrv] at h
          by_cases h0 : l = ""
          · rw [if_pos h0] at h
            simp at h
          · rw [if_neg h0] at h
            by_cases hbm : pyStartsWith "bestmove" l = true
            · rw [if_pos hbm] at h
              cases hsp : splitWS l.toList with
              | nil => simp only [hsp] at h; simp at h
              | cons a tl =>
                cases tl with
                | nil => simp only [hsp] at h; simp at h
                | cons m2 tl2 => simp only [hsp] at h; simp at h
            · rw [if_neg hbm] at h
              cases hpi : parse_usi_info l.toList with
              | some info =>
                simp only [hpi] at h
                rcases List.mem_append.mp h with h2 | h2
                · rcases List.mem_append.mp h2 with h3 | h3
                  · simp at h3
                  · simp only [List.mem_singleton] at h3
                    have hif : (if (false : Bool) then flipInfo info else info)
                        = info := rfl
                    rw [hif] at h3
                    injection h3 with h4
                    exact ⟨l, by rw [hpi, h4]⟩
                · exact ih (j + 1) _ i h2
              | none =>
                simp only [hpi] at h
                rcases List.mem_append.mp h with h2 | h2
                · simp at h2
                · exact ih (j + 1) _ i h2

theorem c10_is_gote_total_witness :
    is_gote_turn (String.mk ("position startpos moves ".toList ++ joinTok ["7g7f".toList]))
      = decide ((["7g7f".toList] : List (List Char)).length % 2 = 1) :=
  c10_is_gote_total.2.1 ["7g7f".toList]
    (fun t ht => by
      rw [List.mem_singleton] at ht
      subst ht
      exact ⟨by decide, by decide⟩)
    (by decide) (by decide)
